import Mathlib

set_option maxRecDepth 8192
set_option maxHeartbeats 1000000

/-!
Shallow embedding of the ofxGe runtime shader-composition core
(plugin registry, builtin-variable registry, expression parsing,
function-dependency analysis, shader manager, composition engine),
translated from the C++ sources, together with proofs settling the
frozen specification claims.

Machine reals (GLSL floats, muParser doubles) never influence any of
the verified control flow; the one numeric payload field is modelled
by an oracle-supplied rational that no theorem inspects.
-/

/-- Character class of the C++ regex word class: letters, digits, underscore. -/
def wordChar (c : Char) : Bool := c.isAlpha || c.isDigit || c = '_'

/-- Character class admissible as the first character of a C identifier. -/
def identStartChar (c : Char) : Bool := c.isAlpha || c = '_'

/-- Helper: a list of characters rendered back to a string. -/
def chars (l : List Char) : String := ⟨l⟩

theorem chars_data (s : String) : chars s.data = s := rfl

theorem data_chars (l : List Char) : (chars l).data = l := rfl

/-- Substring relation on strings, via list infixes of the character data. -/
def StrContains (hay pat : String) : Prop := pat.data <:+: hay.data

theorem strContains_of_eq_append (hay pre pat suf : String)
    (h : hay = pre ++ pat ++ suf) : StrContains hay pat := by
  subst h
  exact ⟨pre.data, suf.data, by simp [StrContains, String.data_append]⟩

-- ================================================================================
-- BuiltinVariables (src/shaderSystem/BuiltinVariables.cpp)
-- ================================================================================

/-- Metadata record for one builtin shader variable (BuiltinVariable struct). -/
structure BuiltinVariable where
  name : String
  glsl_type : String
  component_count : Nat
  needs_uniform : Bool
  needs_declaration : Bool
  declaration_code : String
deriving DecidableEq

/-- The st builtin: normalized screen coordinates. -/
def stVar : BuiltinVariable :=
  ⟨"st", "vec2", 2, true, true, "vec2 st = gl_FragCoord.xy / resolution;"⟩

/-- The time builtin: elapsed seconds. -/
def timeVar : BuiltinVariable :=
  ⟨"time", "float", 1, true, false, ""⟩

/-- The resolution builtin: viewport size. -/
def resolutionVar : BuiltinVariable :=
  ⟨"resolution", "vec2", 2, true, false, ""⟩

/-- The gl_FragCoord builtin: window-space fragment coordinates. -/
def glFragCoordVar : BuiltinVariable :=
  ⟨"gl_FragCoord", "vec4", 4, false, false, ""⟩

/-- Lookup in the static builtin-variable table (BuiltinVariables::getBuiltinInfo). -/
def getBuiltinInfo (name : String) : Option BuiltinVariable :=
  if name = "st" then some stVar
  else if name = "time" then some timeVar
  else if name = "resolution" then some resolutionVar
  else if name = "gl_FragCoord" then some glFragCoordVar
  else none

/-- BuiltinVariables::isBuiltin. -/
def isBuiltinVar (name : String) : Bool := (getBuiltinInfo name).isSome

/-- Splits a character list at the first dot: the C++ sources use
string::find of the first dot and take the two sides. The second
component keeps the dot as its head when a dot exists. -/
def splitAtDot : List Char → List Char × List Char
  | [] => ([], [])
  | c :: rest =>
    if c = '.' then ([], c :: rest)
    else
      let p := splitAtDot rest
      (c :: p.1, p.2)

/-- BuiltinVariables::extractBaseVariable: the text before the first dot
(the whole string when no dot occurs). -/
def extractBaseVariable (v : String) : String := chars (splitAtDot v.data).1

/-- BuiltinVariables::hasSwizzle: the string contains a dot. -/
def hasSwizzle (v : String) : Bool := v.data.contains '.'

/-- BuiltinVariables::extractSwizzle: the text after the first dot, empty
when there is no dot or the dot is the final character. -/
def extractSwizzle (v : String) : String :=
  match (splitAtDot v.data).2 with
  | [] => ""
  | _ :: rest => chars rest

/-- Helper loop of BuiltinVariables::isFloatLiteral: every character is a
digit, allowing at most one dot overall. -/
def floatLitAux : List Char → Bool → Bool
  | [], _ => true
  | c :: rest, hasDot =>
    if c = '.' then
      if hasDot then false else floatLitAux rest true
    else
      c.isDigit && floatLitAux rest hasDot

/-- BuiltinVariables::isFloatLiteral: nonempty, digits only, at most one dot. -/
def isFloatLiteral (s : String) : Bool :=
  if s.data.isEmpty then false else floatLitAux s.data false

/-- BuiltinVariables::getSupportedSwizzleComponents: valid swizzle characters
keyed by the base variable component count. -/
def getSupportedSwizzleComponents (baseVariable : String) : String :=
  match getBuiltinInfo baseVariable with
  | none => ""
  | some info =>
    match info.component_count with
    | 1 => "x"
    | 2 => "xy"
    | 3 => "xyz"
    | 4 => "xyzw"
    | _ => ""

/-- BuiltinVariables::formatSupportedComponents: human-readable component
list; the GLSL type parameter is accepted and ignored, as in the source. -/
def formatSupportedComponents (glslType : String) (componentCount : Nat) : String :=
  match glslType, componentCount with
  | _, 1 => "x"
  | _, 2 => "x, y"
  | _, 3 => "x, y, z"
  | _, 4 => "x, y, z, w"
  | _, _ => ""

/-- BuiltinVariables::isValidSwizzle. The C++ function returns a Bool and
fills an out-parameter error message on failure; here `none` is the valid
verdict and `some msg` is the failure verdict carrying the message. -/
def isValidSwizzle (v : String) : Option String :=
  if isFloatLiteral v then none
  else if !hasSwizzle v then none
  else
    let baseVar := extractBaseVariable v
    match getBuiltinInfo baseVar with
    | none => some ("Unknown variable '" ++ baseVar ++ "'")
    | some info =>
      let validComponents := getSupportedSwizzleComponents baseVar
      if (extractSwizzle v).data.all (fun c => validComponents.data.contains c) then
        none
      else
        some ("Invalid swizzle '" ++ v ++ "': base variable '" ++ baseVar ++
          "' supports components [" ++
          formatSupportedComponents info.glsl_type info.component_count ++ "]")

-- Small facts about the builtin table used by several claims.

theorem getBuiltinInfo_cases (n : String) (i : BuiltinVariable)
    (h : getBuiltinInfo n = some i) :
    (n = "st" ∧ i = stVar) ∨ (n = "time" ∧ i = timeVar) ∨
    (n = "resolution" ∧ i = resolutionVar) ∨ (n = "gl_FragCoord" ∧ i = glFragCoordVar) := by
  by_cases h1 : n = "st"
  · left; refine ⟨h1, ?_⟩; rw [getBuiltinInfo, if_pos h1] at h; exact (Option.some_inj.mp h).symm
  · by_cases h2 : n = "time"
    · right; left; refine ⟨h2, ?_⟩
      rw [getBuiltinInfo, if_neg h1, if_pos h2] at h; exact (Option.some_inj.mp h).symm
    · by_cases h3 : n = "resolution"
      · right; right; left; refine ⟨h3, ?_⟩
        rw [getBuiltinInfo, if_neg h1, if_neg h2, if_pos h3] at h
        exact (Option.some_inj.mp h).symm
      · by_cases h4 : n = "gl_FragCoord"
        · right; right; right; refine ⟨h4, ?_⟩
          rw [getBuiltinInfo, if_neg h1, if_neg h2, if_neg h3, if_pos h4] at h
          exact (Option.some_inj.mp h).symm
        · rw [getBuiltinInfo, if_neg h1, if_neg h2, if_neg h3, if_neg h4] at h
          exact absurd h (by simp)

theorem splitAtDot_no_dot (l : List Char) (h : l.contains '.' = false) :
    splitAtDot l = (l, []) := by
  induction l with
  | nil => rfl
  | cons c rest ih =>
    simp only [List.contains_cons, Bool.or_eq_false_iff] at h
    rw [splitAtDot, if_neg (by
      intro hc
      subst hc
      simp at h)]
    rw [ih h.2]

theorem splitAtDot_append_dot (l r : List Char) (h : l.contains '.' = false) :
    splitAtDot (l ++ '.' :: r) = (l, '.' :: r) := by
  induction l with
  | nil => simp [splitAtDot]
  | cons c rest ih =>
    simp only [List.contains_cons, Bool.or_eq_false_iff] at h
    rw [List.cons_append, splitAtDot, if_neg (by
      intro hc
      subst hc
      simp at h)]
    rw [ih h.2]

theorem isValidSwizzle_invalid_general (base swz : String) (info : BuiltinVariable)
    (hinfo : getBuiltinInfo base = some info)
    (hnodot : base.data.contains '.' = false)
    (hhead : ∃ c0 rest, base.data = c0 :: rest ∧ c0 ≠ '.' ∧ c0.isDigit = false)
    (hall : swz.data.all (fun c => (getSupportedSwizzleComponents base).data.contains c)
      = false) :
    isValidSwizzle (base ++ "." ++ swz) =
      some ("Invalid swizzle '" ++ (base ++ "." ++ swz) ++ "': base variable '" ++ base ++
        "' supports components [" ++
        formatSupportedComponents info.glsl_type info.component_count ++ "]") := by
  obtain ⟨c0, rest, hbase, hc0dot, hc0dig⟩ := hhead
  have hdata : (base ++ "." ++ swz).data = base.data ++ '.' :: swz.data := by
    simp [String.data_append]
  have hfl : isFloatLiteral (base ++ "." ++ swz) = false := by
    rw [isFloatLiteral, hdata, hbase]
    simp [floatLitAux, if_neg hc0dot, hc0dig]
  have hsw : hasSwizzle (base ++ "." ++ swz) = true := by
    rw [hasSwizzle, hdata]
    simp
  have hsplit : splitAtDot ((base ++ "." ++ swz).data) = (base.data, '.' :: swz.data) := by
    rw [hdata]
    exact splitAtDot_append_dot _ _ hnodot
  have hbasex : extractBaseVariable (base ++ "." ++ swz) = base := by
    rw [extractBaseVariable, hsplit]
    exact chars_data base
  have hswzx : extractSwizzle (base ++ "." ++ swz) = swz := by
    rw [extractSwizzle, hsplit]
    exact chars_data swz
  unfold isValidSwizzle
  rw [hfl, hsw, hbasex, hswzx]
  simp only [hinfo, hall]
  simp

/-- C8: for every argument whose base variable is a registered builtin, any
swizzle containing a character outside the first component_count characters
of x,y,z,w makes isValidSwizzle report failure, and the failure message
names the base variable and the supported component list. -/
theorem isValidSwizzle_rejects_bad_component
    (base swz : String) (info : BuiltinVariable)
    (hinfo : getBuiltinInfo base = some info)
    (hbad : ∃ c ∈ swz.data, c ∉ "xyzw".data.take info.component_count) :
    ∃ m, isValidSwizzle (base ++ "." ++ swz) = some m ∧
      StrContains m base ∧
      StrContains m (formatSupportedComponents info.glsl_type info.component_count) := by
  obtain ⟨c, hc, hcbad⟩ := hbad
  have hsupp : (getSupportedSwizzleComponents base).data = "xyzw".data.take info.component_count := by
    rcases getBuiltinInfo_cases base info hinfo with ⟨hb, hi⟩ | ⟨hb, hi⟩ | ⟨hb, hi⟩ | ⟨hb, hi⟩ <;>
      subst hb <;> subst hi <;> decide
  have hall : swz.data.all
      (fun c => (getSupportedSwizzleComponents base).data.contains c) = false := by
    rw [List.all_eq_false]
    refine ⟨c, hc, ?_⟩
    rw [hsupp]
    simpa using hcbad
  have hgen := isValidSwizzle_invalid_general base swz info hinfo (by
      rcases getBuiltinInfo_cases base info hinfo with ⟨hb, _⟩ | ⟨hb, _⟩ | ⟨hb, _⟩ | ⟨hb, _⟩ <;>
        subst hb <;> decide) (by
      rcases getBuiltinInfo_cases base info hinfo with ⟨hb, _⟩ | ⟨hb, _⟩ | ⟨hb, _⟩ | ⟨hb, _⟩ <;>
        subst hb <;> exact ⟨_, _, rfl, by decide, by decide⟩) hall
  refine ⟨_, hgen, ?_, ?_⟩
  · exact ⟨("Invalid swizzle '" ++ (base ++ "." ++ swz) ++ "': base variable '").data,
      ("' supports components [" ++
        formatSupportedComponents info.glsl_type info.component_count ++ "]").data,
      by simp [String.data_append]⟩
  · exact ⟨("Invalid swizzle '" ++ (base ++ "." ++ swz) ++ "': base variable '" ++ base ++
      "' supports components [").data, ("]").data,
      by simp [String.data_append]⟩

/-- C8 witness: the argument st.q is rejected and the message names st and
the supported components x, y. -/
theorem isValidSwizzle_rejects_bad_component_witness :
    getBuiltinInfo "st" = some stVar ∧
    (∃ c ∈ "q".data, c ∉ "xyzw".data.take stVar.component_count) ∧
    (∃ m, isValidSwizzle ("st" ++ "." ++ "q") = some m ∧
      StrContains m "st" ∧
      StrContains m (formatSupportedComponents stVar.glsl_type stVar.component_count)) :=
  ⟨rfl, ⟨'q', by decide, by decide⟩,
    isValidSwizzle_rejects_bad_component "st" "q" stVar rfl ⟨'q', by decide, by decide⟩⟩

-- ================================================================================
-- MinimalBuiltinChecker (src/shaderSystem/MinimalBuiltinChecker.cpp)
-- ================================================================================

/-- GLSL builtin function names, the union of the six category sets of
MinimalBuiltinChecker (angle/trigonometry, exponential, common, geometric,
matrix, vector relational). -/
def glslBuiltinFunctions : List String :=
  ["radians", "degrees", "sin", "cos", "tan", "asin", "acos", "atan",
   "pow", "exp", "log", "exp2", "log2", "sqrt", "inversesqrt",
   "abs", "sign", "floor", "trunc", "round", "roundEven", "ceil", "fract",
   "mod", "modf", "min", "max", "clamp", "mix", "step", "smoothstep",
   "length", "distance", "dot", "cross", "normalize",
   "faceforward", "reflect", "refract",
   "matrixCompMult",
   "lessThan", "lessThanEqual", "greaterThan", "greaterThanEqual",
   "equal", "notEqual", "any", "all", "not"]

/-- MinimalBuiltinChecker::isBuiltinFunction: membership in the function sets. -/
def isBuiltinFunction (name : String) : Bool := glslBuiltinFunctions.contains name

-- ================================================================================
-- ExpressionParser (src/shaderSystem/ExpressionParser.cpp)
-- ================================================================================

/-- Result record of one argument parse (ExpressionInfo struct). The C++
field constant_value ia a double left unset on the non-constant paths; it
is modelled as a rational, 0 on every path that leaves it unset, and no
theorem inspects it. -/
structure ExpressionInfo where
  original : String
  glsl_code : String
  type : String
  dependencies : List String
  is_simple_var : Bool
  is_constant : Bool
  constant_value : Rat
deriving DecidableEq

/-- Oracle for the embedded muParser arithmetic evaluator, an external
third-party library that is not part of this repository. SetExpr only
stores the expression text, so it cannot fail; GetUsedVar parses and may
throw (modelled by usedVars returning none), and Eval may throw (evalThrows)
or produce a value (evalValue). -/
structure MuOracle where
  usedVars : String → Option (List String)
  evalThrows : String → Bool
  evalValue : String → Rat

/-- Splits a character list at the longest run of characters satisfying p,
returning the run and the remainder. -/
def splitRun (p : Char → Bool) : List Char → List Char × List Char
  | [] => ([], [])
  | c :: rest =>
    if p c then
      let q := splitRun p rest
      (c :: q.1, q.2)
    else ([], c :: rest)

theorem splitRun_append (p : Char → Bool) (l : List Char) :
    (splitRun p l).1 ++ (splitRun p l).2 = l := by
  induction l with
  | nil => rfl
  | cons c rest ih =>
    rw [splitRun]
    by_cases h : p c
    · simp only [if_pos h, List.cons_append]
      rw [ih]
    · simp [if_neg h]

theorem splitRun_snd_length_le (p : Char → Bool) (l : List Char) :
    (splitRun p l).2.length ≤ l.length := by
  induction l with
  | nil => simp [splitRun]
  | cons c rest ih =>
    rw [splitRun]
    by_cases h : p c
    · simp only [if_pos h]
      exact le_trans ih (by simp)
    · simp [if_neg h]

/-- Whitespace class of the C isspace used by std::regex and the manual
scans: space, tab, newline, vertical tab, form feed, carriage return. -/
def cIsSpace (c : Char) : Bool :=
  c = ' ' || c = '\t' || c = '\n' || c = '\x0b' || c = '\x0c' || c = '\r'

/-- First index at which pat occurs as a contiguous block of hay
(std::string::find), or none. -/
def subIdx (hay pat : List Char) : Option Nat :=
  if pat.isPrefixOf hay then some 0
  else
    match hay with
    | [] => none
    | _ :: t => (subIdx t pat).map (· + 1)

/-- The manual dependency scan checks whether the first occurrence of a
matched token in the expression is followed (after optional whitespace) by
an opening parenthesis, classifying it as a function call. -/
def isFunctionCallAt (expr m : List Char) : Bool :=
  match subIdx expr m with
  | none => false
  | some i =>
    match (splitRun cIsSpace (expr.drop (i + m.length))).2 with
    | '(' :: _ => true
    | _ => false

/-- Strict lexicographic order on character lists, by code point: the
std::string operator used by std::set and std::sort. -/
def strLtB : List Char → List Char → Bool
  | [], [] => false
  | [], _ :: _ => true
  | _ :: _, [] => false
  | a :: as, b :: bs =>
    if a.toNat < b.toNat then true
    else if b.toNat < a.toNat then false
    else strLtB as bs

/-- Ordered-set insertion by the lexicographic string order, modelling
std::set of std::string. -/
def setInsert (x : String) : List String → List String
  | [] => [x]
  | y :: rest =>
    if strLtB x.data y.data then x :: y :: rest
    else if x = y then y :: rest
    else y :: setInsert x rest

/-- The contents of an std::set after inserting every element of l in
order: a sorted duplicate-free list. -/
def setOfList (l : List String) : List String := l.foldl (fun acc x => setInsert x acc) []

/-- States of the character automaton implementing the std::sregex_iterator
loop for the variable pattern of ExpressionParser::extractDependenciesManually:
an identifier-like token at a word boundary, optionally extended by one dot
and a second nonempty word run (the regex group), greedily and leftmost. -/
inductive ScanMode where
  | outside (prevW : Bool)
  | inWord (acc : List Char)
  | afterDot (acc : List Char)
  | inSwz (accI accS : List Char)

/-- Character automaton producing the matched token texts in match order.
outside tracks whether the previous character was a word character (the
leading boundary test); inWord accumulates the identifier run; afterDot
has seen the optional dot; inSwz accumulates the post-dot word run. -/
def scanVarsA : List Char → ScanMode → List (List Char)
  | [], mode =>
    (match mode with
     | .outside _ => []
     | .inWord acc => [acc]
     | .afterDot acc => [acc]
     | .inSwz a s => [a ++ '.' :: s])
  | c :: rest, mode =>
    (match mode with
     | .outside prevW =>
       if !prevW && identStartChar c then scanVarsA rest (.inWord [c])
       else scanVarsA rest (.outside (wordChar c))
     | .inWord acc =>
       if wordChar c then scanVarsA rest (.inWord (acc ++ [c]))
       else if c = '.' then scanVarsA rest (.afterDot acc)
       else acc :: scanVarsA rest (.outside (wordChar c))
     | .afterDot acc =>
       if wordChar c then scanVarsA rest (.inSwz acc [c])
       else acc :: scanVarsA rest (.outside (wordChar c))
     | .inSwz a s =>
       if wordChar c then scanVarsA rest (.inSwz a (s ++ [c]))
       else (a ++ '.' :: s) :: scanVarsA rest (.outside (wordChar c)))

/-- All variable-pattern matches of an expression, in match order. -/
def scanVars (l : List Char) : List (List Char) := scanVarsA l (.outside false)

/-- Filter of ExpressionParser::extractDependenciesManually: a matched
token is kept as a dependency when it does not start with a digit and its
first occurrence in the expression is not a function call. -/
def keepAsDependency (expr m : List Char) : Bool :=
  (match m with
   | [] => true
   | c :: _ => !c.isDigit) && !isFunctionCallAt expr m

/-- ExpressionParser::extractDependenciesManually: scan identifier-like
tokens, drop numeric literals and function calls, and accumulate the rest
into an ordered set. -/
def extractDependenciesManually (expr : String) : List String :=
  setOfList (((scanVars expr.data).filter (keepAsDependency expr.data)).map chars)


/-- ExpressionParser::extractDependencies: the manual scan for expressions
containing a dot (GLSL syntax muParser cannot parse) and on muParser
failure; otherwise the sorted key set of muParser's GetUsedVar map. -/
def extractDependencies (mu : MuOracle) (expr : String) : List String :=
  if expr.data.contains '.' then extractDependenciesManually expr
  else
    match mu.usedVars expr with
    | some vars => setOfList vars
    | none => extractDependenciesManually expr

/-- ExpressionParser::isSimpleVariable: the anchored regex for an
identifier optionally followed by one dot-or-direct swizzle suffix drawn
from xyzwrgba. -/
def isSimpleVariable (s : String) : Bool :=
  match s.data with
  | [] => false
  | c :: rest =>
    identStartChar c &&
    (let p := splitAtDot rest
     p.1.all wordChar &&
     (match p.2 with
      | [] => true
      | _ :: tail => !tail.isEmpty && tail.all (fun x => "xyzwrgba".data.contains x)))

/-- ExpressionParser::convertToGLSL: the text is passed through unchanged. -/
def convertToGLSL (expr : String) : String := expr

/-- ExpressionParser::inferGLSLType: the first dependency that is a
non-float builtin accessed directly (no swizzle) decides the type; the
default is float. The expression text parameter is unused, as in the source. -/
def inferGLSLType (expr : String) (deps : List String) : String :=
  match deps.find? (fun dep =>
      match getBuiltinInfo (extractBaseVariable dep) with
      | some info => decide (info.glsl_type ≠ "float") && (dep == extractBaseVariable dep)
      | none => false) with
  | some dep =>
    match getBuiltinInfo (extractBaseVariable dep) with
    | some info => info.glsl_type
    | none => "float"
  | none => "float"

/-- Fallback record produced by the catch block of parseExpression. -/
def fallbackInfo (expr : String) : ExpressionInfo :=
  { original := expr, glsl_code := expr, type := "float", dependencies := [],
    is_simple_var := false, is_constant := false, constant_value := 0 }

/-- ExpressionParser::parseExpression. Simple variables are returned
directly with a type read from the builtin registry (the swizzle length
overrides the component type). Complex expressions keep their text as
GLSL, get their free variables extracted, and are marked constant exactly
when no variable occurs, in which case the evaluator is run (an evaluator
exception yields the fallback record). -/
def parseExpression (mu : MuOracle) (expr : String) : ExpressionInfo :=
  if isSimpleVariable expr then
    let ty :=
      match getBuiltinInfo (extractBaseVariable expr) with
      | some binfo =>
        if hasSwizzle expr then
          match (extractSwizzle expr).length with
          | 1 => "float"
          | 2 => "vec2"
          | 3 => "vec3"
          | 4 => "vec4"
          | _ => "float"
        else binfo.glsl_type
      | none => "float"
    { original := expr, glsl_code := expr, type := ty, dependencies := [expr],
      is_simple_var := true, is_constant := false, constant_value := 0 }
  else
    let deps := extractDependencies mu expr
    if deps.isEmpty then
      if mu.evalThrows expr then fallbackInfo expr
      else
        { original := expr, glsl_code := convertToGLSL expr, type := inferGLSLType expr deps,
          dependencies := deps, is_simple_var := false, is_constant := true,
          constant_value := mu.evalValue expr }
    else
      { original := expr, glsl_code := convertToGLSL expr, type := inferGLSLType expr deps,
        dependencies := deps, is_simple_var := false, is_constant := false,
        constant_value := 0 }

/-- C9: the expression sin(time*10.0)+cos(time*5.0) parses to exactly the
dependency list [time], is not constant, and its GLSL text is the input
unchanged, for every behaviour of the embedded arithmetic evaluator (the
dotted text takes the manual extraction path, and no evaluation happens
since a dependency exists). -/
theorem parseExpression_sin_cos_scenario (mu : MuOracle) :
    (parseExpression mu "sin(time*10.0)+cos(time*5.0)").dependencies = ["time"] ∧
    (parseExpression mu "sin(time*10.0)+cos(time*5.0)").is_constant = false ∧
    (parseExpression mu "sin(time*10.0)+cos(time*5.0)").glsl_code =
      "sin(time*10.0)+cos(time*5.0)" := by
  have hsimple : isSimpleVariable "sin(time*10.0)+cos(time*5.0)" = false := by decide
  have hdot : ("sin(time*10.0)+cos(time*5.0)" : String).data.contains '.' = true := by decide
  have hdeps : extractDependencies mu "sin(time*10.0)+cos(time*5.0)" = ["time"] := by
    rw [extractDependencies, if_pos hdot]
    decide
  rw [parseExpression, if_neg (by rw [hsimple]; simp), hdeps]
  exact ⟨rfl, rfl, rfl⟩

/-- C9 witness: instantiation at the trivial evaluator oracle. -/
theorem parseExpression_sin_cos_scenario_witness :
    (parseExpression ⟨fun _ => none, fun _ => false, fun _ => 0⟩
        "sin(time*10.0)+cos(time*5.0)").dependencies = ["time"] ∧
    (parseExpression ⟨fun _ => none, fun _ => false, fun _ => 0⟩
        "sin(time*10.0)+cos(time*5.0)").is_constant = false ∧
    (parseExpression ⟨fun _ => none, fun _ => false, fun _ => 0⟩
        "sin(time*10.0)+cos(time*5.0)").glsl_code = "sin(time*10.0)+cos(time*5.0)" :=
  parseExpression_sin_cos_scenario ⟨fun _ => none, fun _ => false, fun _ => 0⟩

-- ================================================================================
-- PluginManager (src/pluginSystem/PluginManager.cpp)
-- ================================================================================

/-- Host ABI version constant. The glsl-plugin-interface header that
defines PLUGIN_ABI_VERSION is not part of the src tree; the concrete value
is immaterial to every claim, only equality against it is ever tested. -/
def PLUGIN_ABI_VERSION : Int := 1

/-- One overload of a plugin GLSL function: return type and parameter types. -/
structure FunctionOverload where
  returnType : String
  paramTypes : List String
deriving DecidableEq

/-- Metadata of one plugin GLSL function (GLSLFunction of the plugin
interface): name, source file path relative to the plugin directory,
category, and overloads. -/
structure GLSLFunction where
  name : String
  filePath : String
  category : String
  overloads : List FunctionOverload
deriving DecidableEq

/-- A loaded plugin registration (LoadedPlugin struct): the ABI version its
library reports (none when the version symbol is absent), identity strings,
the resource directory set at load time, and its function table. -/
structure LoadedPlugin where
  abi : Option Int
  name : String
  version : String
  author : String
  path : String
  functions : List GLSLFunction
deriving DecidableEq

/-- The loaded_plugins map: alias-keyed registrations, unique keys. -/
abbrev PluginTable := List (String × LoadedPlugin)

/-- Map lookup by alias. -/
def lookupPlugin (t : PluginTable) (al : String) : Option LoadedPlugin :=
  (List.find? (fun p => p.1 == al) t).map (·.2)

/-- Behaviour of one dynamic library and the plugin instance its factory
would produce, as observed through the DynamicLoader and plugin-interface
boundary (dlopen/dlsym and the plugin ABI are outside this repository). -/
structure LibSpec where
  opensOk : Bool
  abi : Option Int
  hasCreate : Bool
  hasInfo : Bool
  createOk : Bool
  hasDestroy : Bool
  name : String
  version : String
  author : String
  functions : List GLSLFunction
deriving DecidableEq

/-- Outcome of PluginManager::loadPlugin: the returned Bool, the new table,
and the resource actions taken on the failure paths (was a plugin instance
created, was it destroyed via the destructor symbol, was the new library
handle closed again). -/
structure LoadResult where
  ok : Bool
  table : PluginTable
  createdInstance : Bool
  destroyedInstance : Bool
  closedLibrary : Bool

/-- PluginManager::extractPluginDirectory: the text up to and including the
last slash, or ./ when no slash occurs. -/
def extractPluginDirectory (p : String) : String :=
  let r := splitRun (fun c => !(c = '/')) p.data.reverse
  match r.2 with
  | [] => "./"
  | _ => chars r.2.reverse

/-- The guard of the ABI check: the library exports the version symbol and
reports a version different from the host constant. -/
def abiMismatch (lib : LibSpec) : Bool :=
  match lib.abi with
  | some v => decide (v ≠ PLUGIN_ABI_VERSION)
  | none => false

/-- PluginManager::loadPlugin. Mirrors the C++ control flow: open the
library, fail on ABI mismatch when the version symbol exists, require the
factory and info symbols, create the instance, resolve the alias (explicit
or the plugin name), reject a duplicate alias destroying the new instance
(when the destructor symbol resolves) and closing the library, otherwise
register the plugin. -/
def loadPlugin (t : PluginTable) (lib : LibSpec) (path al : String) : LoadResult :=
  if !lib.opensOk then ⟨false, t, false, false, false⟩
  else if abiMismatch lib then ⟨false, t, false, false, true⟩
  else if !(lib.hasCreate && lib.hasInfo) then ⟨false, t, false, false, true⟩
  else if !lib.createOk then ⟨false, t, false, false, true⟩
  else
    let al2 := if al = "" then lib.name else al
    if (lookupPlugin t al2).isSome then
      ⟨false, t, true, lib.hasDestroy, true⟩
    else
      ⟨true,
        ((al2, ⟨lib.abi, lib.name, lib.version, lib.author,
          extractPluginDirectory path, lib.functions⟩) :: t : PluginTable),
        true, false, false⟩

/-- PluginManager::unloadPlugin: erase the aliased entry when present. -/
def unloadPlugin (t : PluginTable) (al : String) : PluginTable :=
  List.filter (fun p => !(p.1 == al)) t

/-- PluginManager::unloadAllPlugins: clear the table. -/
def unloadAllPlugins (_t : PluginTable) : PluginTable := ([] : PluginTable)

/-- C3: loading with an alias that is already registered fails, leaves the
table (hence the original registration and its function count) unchanged,
destroys the just-created instance, and closes the new library. The
hypotheses state that the call actually reaches alias resolution on a
well-formed library: it opens, its version symbol (when present) matches,
it has the factory, info and destructor symbols, and the factory succeeds. -/
theorem loadPlugin_duplicate_alias_fails (t : PluginTable) (lib : LibSpec)
    (path al : String) (p : LoadedPlugin)
    (hopen : lib.opensOk = true)
    (habi : ∀ v, lib.abi = some v → v = PLUGIN_ABI_VERSION)
    (hcreate : lib.hasCreate = true)
    (hinfo : lib.hasInfo = true)
    (hinst : lib.createOk = true)
    (hdestroy : lib.hasDestroy = true)
    (hdup : lookupPlugin t (if al = "" then lib.name else al) = some p) :
    (loadPlugin t lib path al).ok = false ∧
    (loadPlugin t lib path al).table = t ∧
    (loadPlugin t lib path al).createdInstance = true ∧
    (loadPlugin t lib path al).destroyedInstance = true ∧
    (loadPlugin t lib path al).closedLibrary = true ∧
    lookupPlugin (loadPlugin t lib path al).table (if al = "" then lib.name else al) = some p := by
  have hmis : abiMismatch lib = false := by
    unfold abiMismatch
    cases h : lib.abi with
    | none => rfl
    | some v => simp [habi v h]
  have hsome : (lookupPlugin t (if al = "" then lib.name else al)).isSome = true := by
    rw [hdup]; rfl
  unfold loadPlugin
  rw [hopen, hmis, hcreate, hinfo, hinst]
  simp [hsome, hdestroy, hdup]

/-- Example registration used by concrete scenarios. -/
def demoPlugin : LoadedPlugin :=
  ⟨some PLUGIN_ABI_VERSION, "demo", "1.0", "a", "plugdir/", [⟨"fn", "fn.glsl", "generative", [⟨"float", ["vec2"]⟩]⟩]⟩

/-- Example library whose self-reported name collides with demoPlugin's alias. -/
def demoDupLib : LibSpec :=
  ⟨true, some PLUGIN_ABI_VERSION, true, true, true, true, "demo", "2.0", "b", []⟩

/-- C3 witness: a concrete duplicate-alias load attempt against a one-entry
table fails as the theorem states. -/
theorem loadPlugin_duplicate_alias_fails_witness :
    (loadPlugin ([("demo", demoPlugin)] : PluginTable) demoDupLib "d/x.so" "").ok = false ∧
    (loadPlugin ([("demo", demoPlugin)] : PluginTable) demoDupLib "d/x.so" "").table =
      ([("demo", demoPlugin)] : PluginTable) ∧
    (loadPlugin ([("demo", demoPlugin)] : PluginTable) demoDupLib "d/x.so" "").createdInstance = true ∧
    (loadPlugin ([("demo", demoPlugin)] : PluginTable) demoDupLib "d/x.so" "").destroyedInstance = true ∧
    (loadPlugin ([("demo", demoPlugin)] : PluginTable) demoDupLib "d/x.so" "").closedLibrary = true ∧
    lookupPlugin (loadPlugin ([("demo", demoPlugin)] : PluginTable) demoDupLib "d/x.so" "").table
      (if "" = "" then demoDupLib.name else "") = some demoPlugin := by
  have h := loadPlugin_duplicate_alias_fails ([("demo", demoPlugin)] : PluginTable)
    demoDupLib "d/x.so" "" demoPlugin rfl
    (by intro v hv; cases hv; rfl) rfl rfl rfl rfl (by rfl)
  exact h

/-- Reachable plugin-table states: every finite sequence of loadPlugin,
unloadPlugin and unloadAllPlugins calls starting from the empty table. -/
inductive PMReach : PluginTable → Prop
  | init : PMReach ([] : PluginTable)
  | load (t : PluginTable) (lib : LibSpec) (path al : String) :
      PMReach t → PMReach (loadPlugin t lib path al).table
  | unload (t : PluginTable) (al : String) :
      PMReach t → PMReach (unloadPlugin t al)
  | unloadAll (t : PluginTable) :
      PMReach t → PMReach (unloadAllPlugins t)

theorem loadPlugin_table_cases (t : PluginTable) (lib : LibSpec) (path al : String) :
    (loadPlugin t lib path al).table = t ∨
    ((loadPlugin t lib path al).table =
      ((if al = "" then lib.name else al), (⟨lib.abi, lib.name, lib.version, lib.author,
        extractPluginDirectory path, lib.functions⟩ : LoadedPlugin)) :: t ∧
      abiMismatch lib = false) := by
  unfold loadPlugin
  by_cases h1 : lib.opensOk
  · by_cases h2 : abiMismatch lib
    · left; simp [h1, h2]
    · by_cases h3 : lib.hasCreate && lib.hasInfo
      · by_cases h4 : lib.createOk
        · by_cases h5 : (lookupPlugin t (if al = "" then lib.name else al)).isSome
          · left; simp [h1, h2, h3, h4, h5]
          · right
            constructor
            · simp [h1, h2, h3, h4, h5]
            · simpa using h2
        · left; simp [h1, h2, h3, h4]
      · left; simp [h1, h2, h3]
  · left; simp [h1]

/-- C4 amended: in every reachable plugin-table state, every loaded plugin
that reports an ABI version (exports the version symbol) reports exactly
the host's expected version. Plugins without the version symbol are loaded
unchecked, which is what refutes the unconditional claim. -/
theorem reachable_plugin_abi_matches (t : PluginTable) (h : PMReach t) :
    ∀ e ∈ t, ∀ v, e.2.abi = some v → v = PLUGIN_ABI_VERSION := by
  induction h with
  | init => intro e he; exact absurd he (List.not_mem_nil e)
  | load t' lib path al _hr ih =>
    intro e he v hv
    rcases loadPlugin_table_cases t' lib path al with hcase | ⟨hcase, hok⟩
    · rw [hcase] at he
      exact ih e he v hv
    · rw [hcase] at he
      rcases List.mem_cons.mp he with hhead | htail
      · subst hhead
        simp only at hv
        unfold abiMismatch at hok
        rw [hv] at hok
        simpa using hok
      · exact ih e htail v hv
  | unload t' al _hr ih =>
    intro e he
    exact ih e (List.mem_of_mem_filter he)
  | unloadAll t' _hr ih =>
    intro e he
    exact absurd he (List.not_mem_nil e)

/-- Library reporting a matching ABI version, for the C4 witness. -/
def demoGoodLib : LibSpec :=
  ⟨true, some PLUGIN_ABI_VERSION, true, true, true, true, "good", "1.0", "a", []⟩

/-- C4 witness: the amended invariant instantiated at the reachable state
obtained by loading one well-formed library into the empty table. -/
theorem reachable_plugin_abi_matches_witness :
    PMReach (loadPlugin ([] : PluginTable) demoGoodLib "d/g.so" "").table ∧
    (∀ e ∈ (loadPlugin ([] : PluginTable) demoGoodLib "d/g.so" "").table,
      ∀ v, e.2.abi = some v → v = PLUGIN_ABI_VERSION) :=
  ⟨PMReach.load ([] : PluginTable) demoGoodLib "d/g.so" "" PMReach.init,
   reachable_plugin_abi_matches _
     (PMReach.load ([] : PluginTable) demoGoodLib "d/g.so" "" PMReach.init)⟩

/-- Library that does not export the ABI version symbol. -/
def demoNoAbiLib : LibSpec :=
  ⟨true, none, true, true, true, true, "noabi", "1.0", "a", []⟩

/-- C4 counterexample: loading a library that does not export the version
symbol succeeds, so a reachable table contains a plugin whose ABI version
is not the host's expected version (it is unknown): the unconditional
claim that every loaded plugin has the expected ABI version fails. -/
theorem reachable_plugin_abi_counterexample :
    PMReach (loadPlugin ([] : PluginTable) demoNoAbiLib "d/n.so" "").table ∧
    ∃ e ∈ (loadPlugin ([] : PluginTable) demoNoAbiLib "d/n.so" "").table,
      ¬ e.2.abi = some PLUGIN_ABI_VERSION := by
  constructor
  · exact PMReach.load ([] : PluginTable) demoNoAbiLib "d/n.so" "" PMReach.init
  · refine ⟨("noabi", ⟨none, "noabi", "1.0", "a", "d/", []⟩), ?_, by simp⟩
    show _ ∈ (loadPlugin ([] : PluginTable) demoNoAbiLib "d/n.so" "").table
    rw [show (loadPlugin ([] : PluginTable) demoNoAbiLib "d/n.so" "").table =
      ([("noabi", ⟨none, "noabi", "1.0", "a", "d/", []⟩)] : PluginTable) from rfl]
    exact List.mem_singleton.mpr rfl

-- ================================================================================
-- ShaderManager (src/shaderSystem/ShaderManager.cpp) and ShaderNode
-- ================================================================================

/-- ShaderManager::isFloatLiteral: digits with at most one dot, allowing a
leading minus sign (unlike the BuiltinVariables variant). -/
def isFloatLiteralSM (s : String) : Bool :=
  match s.data with
  | [] => false
  | c :: rest =>
    if c = '.' then floatLitAux rest true
    else if c.isDigit then floatLitAux rest false
    else if c = '-' then floatLitAux rest false
    else false

/-- Component count one argument contributes in
ShaderManager::canCombineToVector: literals and unknown names count one,
builtins count their swizzle length or their component count. -/
def argComponentCount (arg : String) : Nat :=
  if isFloatLiteralSM arg then 1
  else
    match getBuiltinInfo (extractBaseVariable arg) with
    | some info =>
      if hasSwizzle arg then (extractSwizzle arg).length else info.component_count
    | none => 1

/-- ShaderManager::canCombineToVector: the summed components of the user
arguments exactly fill the target vector type. -/
def canCombineToVector (args : List String) (targetType : String) : Bool :=
  match (if targetType = "vec2" then some 2
    else if targetType = "vec3" then some 3
    else if targetType = "vec4" then some 4
    else if targetType = "float" then some 1
    else none : Option Nat) with
  | none => false
  | some required => (args.foldl (fun acc a => acc + argComponentCount a) 0) == required

/-- ShaderManager::getArgumentGLSLType: literals are float; swizzled
arguments take the type of their swizzle length; known builtins take their
registered type; everything else is a user float uniform. -/
def getArgumentGLSLType (arg : String) : String :=
  if isFloatLiteralSM arg then "float"
  else if hasSwizzle arg then
    match (extractSwizzle arg).length with
    | 1 => "float"
    | 2 => "vec2"
    | 3 => "vec3"
    | 4 => "vec4"
    | _ => "float"
  else
    match getBuiltinInfo arg with
    | some info => info.glsl_type
    | none => "float"

/-- GLSL component count of a type name as used by
ShaderManager::findBestOverload: vecN counts N, anything else counts one. -/
def typeComponents (t : String) : Nat :=
  if t = "vec2" then 2 else if t = "vec3" then 3 else if t = "vec4" then 4 else 1

/-- Total GLSL components of the user arguments (findBestOverload). -/
def totalComponents (args : List String) : Nat :=
  args.foldl (fun acc a => acc + typeComponents (getArgumentGLSLType a)) 0

/-- Third pass of findBestOverload: the single-parameter overload whose
component count is nearest the total, earliest wins ties. -/
def bestSingleVec (overloads : List FunctionOverload) (total : Nat) : Option FunctionOverload :=
  (overloads.foldl (fun (best : Option (FunctionOverload × Nat)) ov =>
    if ov.paramTypes.length = 1 then
      let diff := ((typeComponents (ov.paramTypes.headD "") : Int) - (total : Int)).natAbs
      match best with
      | none => some (ov, diff)
      | some (b, d) => if diff < d then some (ov, diff) else some (b, d)
    else best) none).map (·.1)

/-- ShaderManager::findBestOverload: (1) a single-vector overload exactly
filled by the arguments, (2) an overload whose arity matches, (3) the
nearest single-vector overload. -/
def findBestOverload (fm : GLSLFunction) (args : List String) : Option FunctionOverload :=
  if fm.overloads.isEmpty then none
  else
    let total := totalComponents args
    match fm.overloads.find? (fun ov => ov.paramTypes.length == 1 &&
        typeComponents (ov.paramTypes.headD "") == total &&
        canCombineToVector args (ov.paramTypes.headD "")) with
    | some ov => some ov
    | none =>
      match fm.overloads.find? (fun ov => ov.paramTypes.length == args.length) with
      | some ov => some ov
      | none => bestSingleVec fm.overloads total

/-- PluginManager::findFunction: first loaded plugin owning the name wins. -/
def findFunction : PluginTable → String → Option GLSLFunction
  | [], _ => none
  | (_, pl) :: rest, name =>
    match pl.functions.find? (fun f => f.name == name) with
    | some f => some f
    | none => findFunction rest name

/-- Insertion into a sorted association list with overwrite: std::map. -/
def mapInsertSorted {α : Type} (k : String) (v : α) :
    List (String × α) → List (String × α)
  | [] => [(k, v)]
  | (k2, v2) :: rest =>
    if strLtB k.data k2.data then (k, v) :: (k2, v2) :: rest
    else if k = k2 then (k, v) :: rest
    else (k2, v2) :: mapInsertSorted k v rest

/-- Lookup in an association list. -/
def lookupAssoc {α : Type} (m : List (String × α)) (k : String) : Option α :=
  (List.find? (fun p => p.1 == k) m).map (·.2)

/-- PluginManager::getFunctionsByPlugin: an alias-sorted map from plugin
alias to its function names. -/
def functionsByPlugin (t : PluginTable) : List (String × List String) :=
  t.foldl (fun acc p => mapInsertSorted p.1 (p.2.functions.map (·.name)) acc) []

/-- The reverse scan in ShaderManager::createShader and
FunctionDependencyAnalyzer::classifyFunction: the first plugin (in map
order) whose function list contains the name; empty when none does. -/
def pluginNameOf (t : PluginTable) (fn : String) : String :=
  match (functionsByPlugin t).find? (fun p => p.2.contains fn) with
  | some p => p.1
  | none => ""

/-- PluginManager::getPluginPaths: alias-sorted map to resource paths. -/
def pluginPaths (t : PluginTable) : List (String × String) :=
  t.foldl (fun acc p => mapInsertSorted p.1 p.2.path acc) []

/-- ShaderManager::resolveGLSLFilePath: the plugin resource directory
prepended to the function's relative file path; empty when the plugin has
no recorded path. -/
def resolveGLSLFilePath (t : PluginTable) (pluginName funcFilePath : String) : String :=
  match lookupAssoc (pluginPaths t) pluginName with
  | none => ""
  | some dir => dir ++ funcFilePath

/-- ShaderManager environment: the plugin table plus the two external
collaborators, the filesystem read (ofBufferFromFile, empty text meaning
failure) and the GPU compiler verdict on (vertex, fragment, include dir). -/
structure SMEnv where
  plugins : PluginTable
  fileContent : String → String
  compileOk : String → String → String → Bool

/-- ShaderManager::readFileContent; the empty path never opens. -/
def readFileContent (env : SMEnv) (path : String) : String :=
  if path = "" then "" else env.fileContent path

/-- ShaderManager::loadGLSLFunction. -/
def loadGLSLFunction (env : SMEnv) (fm : GLSLFunction) (pluginName : String) : String :=
  readFileContent env (resolveGLSLFilePath env.plugins pluginName fm.filePath)

/-- Directory part of a path without the trailing slash
(ShaderManager::createShader sets source_directory_path this way); empty
when the path has no slash. -/
def dirOfPath (p : String) : String :=
  match (splitRun (fun c => !(c = '/')) p.data.reverse).2 with
  | [] => ""
  | _ :: rest2 => chars rest2.reverse

/-- ShaderManager::generateCacheKey: the function name followed by every
argument, separated by underscores. ShaderNode::generateShaderKey is the
same computation. -/
def generateCacheKey (function_name : String) (arguments : List String) : String :=
  arguments.foldl (fun key arg => key ++ "_" ++ arg) function_name

/-- The default vertex shader template literal of
ShaderManager::initializeShaderTemplates. -/
def defaultVertexShader : String :=
  "\n#version 150\n\nuniform mat4 modelViewProjectionMatrix;\n\nin vec4 position;\nin vec2 texcoord;\n\nout vec2 vTexCoord;\n\nvoid main() \x7b\n    vTexCoord = texcoord;\n    gl_Position = modelViewProjectionMatrix * position;\n\x7d\n"

/-- The default fragment shader template literal with the three placeholders. -/
def defaultFragmentShaderTemplate : String :=
  "\n#version 150\n\nin vec2 vTexCoord;\nout vec4 outputColor;\n\n// Uniforms will be inserted here\n\x7bUNIFORMS\x7d\n\n// GLSL function will be inserted here\n\x7bGLSL_FUNCTION\x7d\n\nvoid main() \x7b\n    // Main function content will be inserted here\n    \x7bMAIN_CONTENT\x7d\n\x7d\n"

/-- Replace the first occurrence of pat in s (string::find + replace). -/
def replaceFirst (s pat repl : String) : String :=
  match subIdx s.data pat.data with
  | none => s
  | some i => chars (s.data.take i ++ repl.data ++ s.data.drop (i + pat.data.length))

/-- ShaderManager::generateUniforms, the deduplicated uniform-name set:
literals are skipped, builtins that need a uniform contribute resolution
for st or their own name, unknown names contribute themselves. -/
def neededUniforms (args : List String) : List String :=
  args.foldl (fun acc arg =>
    if isFloatLiteralSM arg then acc
    else
      match getBuiltinInfo (extractBaseVariable arg) with
      | some info =>
        if info.needs_uniform then
          setInsert (if extractBaseVariable arg = "st" then "resolution"
            else extractBaseVariable arg) acc
        else acc
      | none => setInsert arg acc) []

/-- ShaderManager::generateUniforms: one declaration per needed uniform. -/
def generateUniforms (args : List String) : String :=
  ((neededUniforms args).map (fun u =>
    if u = "time" then "uniform float time;\n"
    else if u = "resolution" then "uniform vec2 resolution;\n"
    else "uniform float " ++ u ++ ";\n")).foldl (fun a b => a ++ b) ""

/-- ShaderManager::getFunctionReturnType: the chosen overload's return
type, float as the fallback. -/
def getFunctionReturnType (t : PluginTable) (fn : String) (args : List String) : String :=
  match findFunction t fn with
  | none => "float"
  | some fm =>
    match findBestOverload fm args with
    | none => "float"
    | some ov => ov.returnType

/-- ShaderManager::generateMainFunction: builtin local declarations (a
deduplicated set of declaration snippets), the call binding result, and
the fixed result-to-vec4 conversion table. -/
def generateMainFunction (t : PluginTable) (fn : String) (args : List String) : String :=
  let decls := args.foldl (fun acc arg =>
    if isFloatLiteralSM arg then acc
    else
      match getBuiltinInfo (extractBaseVariable arg) with
      | some info =>
        if info.needs_declaration then setInsert info.declaration_code acc else acc
      | none => acc) []
  let declText := (decls.map (fun d => "    " ++ d ++ "\n")).foldl (fun a b => a ++ b) ""
  let declText := if decls.isEmpty then declText else declText ++ "\n"
  let rt := getFunctionReturnType t fn args
  let call := declText ++ "    // Call the target GLSL function\n    " ++ rt ++
    " result = " ++ fn ++ "(" ++ String.intercalate ", " args ++ ");\n\n"
  if rt = "float" then call ++ "    outputColor = vec4(vec3(result), 1.0);\n"
  else if rt = "vec2" then call ++ "    outputColor = vec4(result, 0.0, 1.0);\n"
  else if rt = "vec3" then call ++ "    outputColor = vec4(result, 1.0);\n"
  else if rt = "vec4" then call ++ "    outputColor = result;\n"
  else call ++ "    outputColor = vec4(0.0, 0.0, 0.0, 1.0); // Unsupported return type\n"

/-- ShaderManager::calculateUserArgumentSignature. -/
def calculateUserArgumentSignature (args : List String) : String :=
  String.intercalate "," (args.map getArgumentGLSLType)

/-- ShaderManager::calculateOverloadSignature. -/
def calculateOverloadSignature (ov : FunctionOverload) : String :=
  String.intercalate "," ov.paramTypes

/-- ShaderManager::isSignatureDuplicate: some overload already has exactly
the user-argument signature. -/
def isSignatureDuplicate (fm : GLSLFunction) (args : List String) : Bool :=
  fm.overloads.any (fun ov => calculateOverloadSignature ov == calculateUserArgumentSignature args)

/-- ShaderManager::generateWrapperFunction: a same-named wrapper whose
signature is built from the user argument types and whose body forwards to
the target overload, packing into a single vector constructor or passing
the slots through. -/
def generateWrapperFunction (fn : String) (args : List String)
    (target : FunctionOverload) : String :=
  let argNames := (List.range args.length).map (fun i => "arg" ++ toString i)
  let sigArgs := String.intercalate ", "
    ((List.range args.length).map (fun i =>
      getArgumentGLSLType (args.getD i "") ++ " arg" ++ toString i))
  let body :=
    if target.paramTypes.length = 1 then
      target.paramTypes.headD "" ++ "(" ++ String.intercalate ", " argNames ++ ")"
    else String.intercalate ", " argNames
  target.returnType ++ " " ++ fn ++ "(" ++ sigArgs ++ ") \x7b\n" ++
    "    return " ++ fn ++ "(" ++ body ++ ");\n\x7d\n"

/-- ShaderManager::generateFragmentShader: fill the three template slots
with uniforms, the plugin function text plus an optional wrapper, and the
main body. -/
def generateFragmentShader (t : PluginTable) (glslFunctionCode fn : String)
    (args : List String) : String :=
  let wrapper :=
    match findFunction t fn with
    | none => ""
    | some fm =>
      if fm.overloads.isEmpty then ""
      else
        match findBestOverload fm args with
        | none => ""
        | some best =>
          if isSignatureDuplicate fm args then "" else generateWrapperFunction fn args best
  let combined := glslFunctionCode ++
    (if wrapper = "" then ""
     else "\n\n// Generated wrapper function to adapt arguments\n" ++ wrapper)
  replaceFirst
    (replaceFirst
      (replaceFirst defaultFragmentShaderTemplate "\x7bUNIFORMS\x7d" (generateUniforms args))
      "\x7bGLSL_FUNCTION\x7d" combined)
    "\x7bMAIN_CONTENT\x7d" (generateMainFunction t fn args)

/-- The observable state of one ShaderNode: metadata, generated sources,
auto-update flags, and the compile status triple behind
ShaderNode::isReady (is_compiled, has_error, and whether a program is
loaded in the ofShader object). -/
structure ShaderNodeM where
  function_name : String
  arguments : List String
  shader_key : String
  vertex_shader_code : String
  fragment_shader_code : String
  glsl_function_code : String
  source_directory_path : String
  auto_update_time : Bool
  auto_update_resolution : Bool
  is_compiled : Bool
  has_error : Bool
  error_message : String
  shader_loaded : Bool
deriving DecidableEq

/-- ShaderNode constructor from function name and arguments. -/
def mkShaderNode (fn : String) (args : List String) : ShaderNodeM :=
  { function_name := fn, arguments := args, shader_key := generateCacheKey fn args,
    vertex_shader_code := "", fragment_shader_code := "", glsl_function_code := "",
    source_directory_path := "", auto_update_time := false, auto_update_resolution := false,
    is_compiled := false, has_error := false, error_message := "", shader_loaded := false }

/-- ShaderNode::setError. -/
def setErrorNode (n : ShaderNodeM) (msg : String) : ShaderNodeM :=
  { n with has_error := true, error_message := msg, is_compiled := false }

/-- ShaderNode::isReady. -/
def isReady (n : ShaderNodeM) : Bool := n.is_compiled && !n.has_error && n.shader_loaded

/-- ShaderNode::compile: fails on missing sources, otherwise adopts the
external compiler verdict ok, loading the program exactly on success.
Returns the Bool the C++ method returns together with the updated node. -/
def nodeCompileR (ok : Bool) (n : ShaderNodeM) : Bool × ShaderNodeM :=
  if n.vertex_shader_code == "" || n.fragment_shader_code == "" then
    (false, setErrorNode n "Shader code not set before compilation")
  else if ok then
    (true,
      { n with
        is_compiled := true
        has_error := false
        error_message := ""
        shader_loaded := true })
  else (false, setErrorNode n "Failed to compile or link shader program")

/-- ShaderManager::createErrorShader. -/
def createErrorShader (fn : String) (args : List String) (msg : String) : ShaderNodeM :=
  setErrorNode (mkShaderNode fn args) msg

/-- Outcome of one ShaderManager::createShader call: the returned node, the
cache afterwards, and whether the code-generation and compilation stages
actually ran (they are skipped on cache hits and early failures). -/
structure CreateResult where
  node : ShaderNodeM
  cache : List (String × ShaderNodeM)
  ranCodegen : Bool
  ranCompile : Bool
deriving DecidableEq

/-- Cache lookup (ShaderManager::getCachedShader). -/
def cacheLookup (c : List (String × ShaderNodeM)) (k : String) : Option ShaderNodeM :=
  (List.find? (fun p => p.1 == k) c).map (·.2)

/-- Tail of ShaderManager::createShader after ShaderNode::compile: on
success, set the auto-update flags from the top-level base-name scan of
the arguments and insert into the cache; on failure return the node in
its error state, leaving the cache alone. -/
def finishCompile (cache : List (String × ShaderNodeM)) (args : List String)
    (key : String) (compiled : Bool × ShaderNodeM) : CreateResult :=
  if compiled.1 then
    let node3 : ShaderNodeM :=
      { compiled.2 with
        auto_update_time := args.any (fun a => extractBaseVariable a == "time")
        auto_update_resolution := args.any (fun a => extractBaseVariable a == "st") }
    ⟨node3, (key, node3) :: cache, true, true⟩
  else ⟨compiled.2, cache, true, true⟩

/-- The uncached tail of ShaderManager::createShader: metadata lookup,
source load, code generation, external compilation, auto-update flags and
cache insertion on success only. -/
def createShaderUncached (env : SMEnv) (cache : List (String × ShaderNodeM))
    (fn : String) (args : List String) (key : String) : CreateResult :=
  match findFunction env.plugins fn with
  | none =>
    ⟨createErrorShader fn args ("Function '" ++ fn ++ "' not found in any loaded plugin"),
      cache, false, false⟩
  | some fm =>
    let pname := pluginNameOf env.plugins fn
    let code := loadGLSLFunction env fm pname
    if code == "" then
      ⟨createErrorShader fn args ("Failed to load GLSL code for function: " ++ fn),
        cache, false, false⟩
    else
      let dir := dirOfPath (resolveGLSLFilePath env.plugins pname fm.filePath)
      let vertex := defaultVertexShader
      let fragment := generateFragmentShader env.plugins code fn args
      let node1 : ShaderNodeM :=
        { mkShaderNode fn args with
          glsl_function_code := code
          source_directory_path := dir
          vertex_shader_code := vertex
          fragment_shader_code := fragment }
      finishCompile cache args key (nodeCompileR (env.compileOk vertex fragment dir) node1)

/-- ShaderManager::createShader: swizzle validation first, then the
signature-keyed cache, then the uncached tail. -/
def createShader (env : SMEnv) (cache : List (String × ShaderNodeM))
    (fn : String) (args : List String) : CreateResult :=
  match args.findSome? (fun a => isValidSwizzle a) with
  | some err => ⟨createErrorShader fn args err, cache, false, false⟩
  | none =>
    let key := generateCacheKey fn args
    match cacheLookup cache key with
    | some sh =>
      if isReady sh then ⟨sh, cache, false, false⟩
      else createShaderUncached env cache fn args key
    | none => createShaderUncached env cache fn args key

theorem isReady_createErrorShader (fn : String) (args : List String) (msg : String) :
    isReady (createErrorShader fn args msg) = false := by
  simp [isReady, createErrorShader, setErrorNode, mkShaderNode]

theorem isReady_setErrorNode (n : ShaderNodeM) (msg : String) :
    isReady (setErrorNode n msg) = false := by
  simp [isReady, setErrorNode]

theorem cacheLookup_cons_self (key : String) (node : ShaderNodeM)
    (c : List (String × ShaderNodeM)) :
    cacheLookup ((key, node) :: c) key = some node := by
  simp [cacheLookup, List.find?]

theorem nodeCompileR_snd_auto_time (ok : Bool) (n : ShaderNodeM) :
    (nodeCompileR ok n).2.auto_update_time = n.auto_update_time := by
  unfold nodeCompileR setErrorNode
  split
  · rfl
  · split <;> rfl

theorem nodeCompileR_snd_auto_resolution (ok : Bool) (n : ShaderNodeM) :
    (nodeCompileR ok n).2.auto_update_resolution = n.auto_update_resolution := by
  unfold nodeCompileR setErrorNode
  split
  · rfl
  · split <;> rfl

theorem nodeCompileR_fst_ready (ok : Bool) (n : ShaderNodeM) :
    isReady (nodeCompileR ok n).2 = (nodeCompileR ok n).1 := by
  unfold nodeCompileR
  split
  · simp [isReady_setErrorNode]
  · split
    · simp [isReady]
    · simp [isReady_setErrorNode]

theorem finishCompile_spec (cache : List (String × ShaderNodeM)) (args : List String)
    (key : String) (compiled : Bool × ShaderNodeM)
    (hr : isReady compiled.2 = compiled.1)
    (ht : compiled.2.auto_update_time = false)
    (hs : compiled.2.auto_update_resolution = false) :
    (isReady (finishCompile cache args key compiled).node = false ∧
     (finishCompile cache args key compiled).cache = cache ∧
     (finishCompile cache args key compiled).node.auto_update_time = false ∧
     (finishCompile cache args key compiled).node.auto_update_resolution = false) ∨
    (isReady (finishCompile cache args key compiled).node = true ∧
     (finishCompile cache args key compiled).cache =
       (key, (finishCompile cache args key compiled).node) :: cache ∧
     (finishCompile cache args key compiled).node.auto_update_time =
       args.any (fun a => extractBaseVariable a == "time") ∧
     (finishCompile cache args key compiled).node.auto_update_resolution =
       args.any (fun a => extractBaseVariable a == "st")) := by
  obtain ⟨b, n⟩ := compiled
  cases b
  · left
    unfold finishCompile
    simp only [Bool.false_eq_true, if_false]
    refine ⟨?_, ?_, ?_, ?_⟩ <;>
      first
        | exact hr
        | exact ht
        | exact hs
        | rfl
        | trivial
  · right
    unfold finishCompile
    simp only [if_true]
    refine ⟨?_, ?_, ?_, ?_⟩ <;>
      first
        | exact hr
        | rfl
        | trivial

/-- Case split for the uncached tail of createShader: either it fails (node
not ready, cache untouched, auto-update flags never set), or it succeeds
(node ready, cached under the key, flags exactly the top-level base-name
scan of the arguments). -/
theorem createShaderUncached_spec (env : SMEnv) (cache : List (String × ShaderNodeM))
    (fn : String) (args : List String) (key : String) :
    (isReady (createShaderUncached env cache fn args key).node = false ∧
     (createShaderUncached env cache fn args key).cache = cache ∧
     (createShaderUncached env cache fn args key).node.auto_update_time = false ∧
     (createShaderUncached env cache fn args key).node.auto_update_resolution = false) ∨
    (isReady (createShaderUncached env cache fn args key).node = true ∧
     (createShaderUncached env cache fn args key).cache =
       (key, (createShaderUncached env cache fn args key).node) :: cache ∧
     (createShaderUncached env cache fn args key).node.auto_update_time =
       args.any (fun a => extractBaseVariable a == "time") ∧
     (createShaderUncached env cache fn args key).node.auto_update_resolution =
       args.any (fun a => extractBaseVariable a == "st")) := by
  unfold createShaderUncached
  split
  · left
    exact ⟨isReady_createErrorShader _ _ _, rfl, rfl, rfl⟩
  · dsimp only
    split
    · left
      exact ⟨isReady_createErrorShader _ _ _, rfl, rfl, rfl⟩
    · exact finishCompile_spec _ _ _ _ (nodeCompileR_fst_ready _ _)
        ((nodeCompileR_snd_auto_time _ _).trans rfl)
        ((nodeCompileR_snd_auto_resolution _ _).trans rfl)

/-- C6: when a createShader call yields a ready artifact, the identical
call immediately afterwards returns that same artifact from the cache,
leaves the cache unchanged, and runs neither code generation nor
compilation. -/
theorem createShader_identical_call_served_from_cache (env : SMEnv)
    (cache : List (String × ShaderNodeM)) (fn : String) (args : List String)
    (hready : isReady (createShader env cache fn args).node = true) :
    createShader env (createShader env cache fn args).cache fn args =
      ⟨(createShader env cache fn args).node, (createShader env cache fn args).cache,
        false, false⟩ := by
  cases hval : args.findSome? (fun a => isValidSwizzle a) with
  | some err =>
    have h1 : createShader env cache fn args = ⟨createErrorShader fn args err, cache, false, false⟩ := by
      unfold createShader
      rw [hval]
    rw [h1] at hready
    rw [isReady_createErrorShader] at hready
    exact absurd hready Bool.false_ne_true
  | none =>
    have hunf : createShader env cache fn args =
        (match cacheLookup cache (generateCacheKey fn args) with
         | some sh =>
           if isReady sh then (⟨sh, cache, false, false⟩ : CreateResult)
           else createShaderUncached env cache fn args (generateCacheKey fn args)
         | none => createShaderUncached env cache fn args (generateCacheKey fn args)) := by
      unfold createShader
      rw [hval]
    cases hcl : cacheLookup cache (generateCacheKey fn args) with
    | some sh =>
      by_cases hrdy : isReady sh = true
      · have h1 : createShader env cache fn args = ⟨sh, cache, false, false⟩ := by
          rw [hunf, hcl]
          simp [hrdy]
        rw [h1]
        unfold createShader
        dsimp only
        rw [hval, hcl]
        simp [hrdy]
      · have h1 : createShader env cache fn args =
            createShaderUncached env cache fn args (generateCacheKey fn args) := by
          rw [hunf, hcl]
          simp [hrdy]
        rw [h1] at hready ⊢
        rcases createShaderUncached_spec env cache fn args (generateCacheKey fn args) with
          ⟨hnr, _, _, _⟩ | ⟨_, hc2, _, _⟩
        · rw [hready] at hnr
          simp at hnr
        · unfold createShader
          dsimp only
          rw [hval, hc2, cacheLookup_cons_self]
          simp [hready]
    | none =>
      have h1 : createShader env cache fn args =
          createShaderUncached env cache fn args (generateCacheKey fn args) := by
        rw [hunf, hcl]
      rw [h1] at hready ⊢
      rcases createShaderUncached_spec env cache fn args (generateCacheKey fn args) with
        ⟨hnr, _, _, _⟩ | ⟨_, hc2, _, _⟩
      · rw [hready] at hnr
        simp at hnr
      · unfold createShader
        dsimp only
        rw [hval, hc2, cacheLookup_cons_self]
        simp [hready]

/-- Plugin and environment used by the concrete ShaderManager scenarios: a
single plugin exposing a two-float function f, a filesystem that always
returns its source, and a compiler that always succeeds. -/
def abPlugin : LoadedPlugin :=
  ⟨some PLUGIN_ABI_VERSION, "q", "1.0", "a", "qdir/",
    [⟨"f", "f.glsl", "gen", [⟨"float", ["float", "float"]⟩]⟩]⟩

/-- Always-succeeding environment over abPlugin. -/
def abEnv : SMEnv :=
  { plugins := [("q", abPlugin)]
    fileContent := fun _ => "float f(float a, float b) \x7b return a; \x7d"
    compileOk := fun _ _ _ => true }

/-- C6 witness: a concrete successful creation followed by the identical
call, which is served from the cache with no code generation or compile. -/
theorem createShader_identical_call_served_from_cache_witness :
    isReady (createShader abEnv [] "f" ["a", "b"]).node = true ∧
    createShader abEnv (createShader abEnv [] "f" ["a", "b"]).cache "f" ["a", "b"] =
      ⟨(createShader abEnv [] "f" ["a", "b"]).node, (createShader abEnv [] "f" ["a", "b"]).cache,
        false, false⟩ :=
  ⟨by decide, createShader_identical_call_served_from_cache abEnv [] "f" ["a", "b"] (by decide)⟩

/-- C7 amended: in createShader (on a cache miss for the request key), the
auto-update flags are set only when the artifact ends up ready, i.e. only
after the external compiler reports success; the scan that sets them
covers exactly the top-level arguments' base names (nested-expression
dependencies are not scanned in createShader); and the artifact is
inserted into the cache exactly on that success. -/
theorem createShader_flags_from_toplevel_scan_on_success (env : SMEnv)
    (cache : List (String × ShaderNodeM)) (fn : String) (args : List String)
    (hmiss : ∀ sh, cacheLookup cache (generateCacheKey fn args) = some sh →
      isReady sh = false) :
    (createShader env cache fn args).node.auto_update_time =
      (isReady (createShader env cache fn args).node &&
        args.any (fun a => extractBaseVariable a == "time")) ∧
    (createShader env cache fn args).node.auto_update_resolution =
      (isReady (createShader env cache fn args).node &&
        args.any (fun a => extractBaseVariable a == "st")) ∧
    (createShader env cache fn args).cache =
      (if isReady (createShader env cache fn args).node then
        (generateCacheKey fn args, (createShader env cache fn args).node) :: cache
       else cache) := by
  cases hval : args.findSome? (fun a => isValidSwizzle a) with
  | some err =>
    have h1 : createShader env cache fn args =
        ⟨createErrorShader fn args err, cache, false, false⟩ := by
      unfold createShader
      rw [hval]
    rw [h1]
    simp [isReady, createErrorShader, setErrorNode, mkShaderNode]
  | none =>
    have hunf : createShader env cache fn args =
        (match cacheLookup cache (generateCacheKey fn args) with
         | some sh =>
           if isReady sh then (⟨sh, cache, false, false⟩ : CreateResult)
           else createShaderUncached env cache fn args (generateCacheKey fn args)
         | none => createShaderUncached env cache fn args (generateCacheKey fn args)) := by
      unfold createShader
      rw [hval]
    have h1 : createShader env cache fn args =
        createShaderUncached env cache fn args (generateCacheKey fn args) := by
      cases hcl : cacheLookup cache (generateCacheKey fn args) with
      | some sh =>
        rw [hunf, hcl]
        simp [hmiss sh hcl]
      | none => rw [hunf, hcl]
    rw [h1]
    rcases createShaderUncached_spec env cache fn args (generateCacheKey fn args) with
      ⟨hnr, hc2, ht, hs⟩ | ⟨hr2, hc2, ht, hs⟩
    · rw [hnr, hc2, ht, hs]
      simp
    · rw [hr2, hc2, ht, hs]
      simp

/-- C7 witness: instantiation at the always-succeeding environment, empty
cache, and arguments naming time and st at top level. -/
theorem createShader_flags_from_toplevel_scan_on_success_witness :
    (∀ sh, cacheLookup ([] : List (String × ShaderNodeM))
        (generateCacheKey "f" ["st", "time"]) = some sh → isReady sh = false) ∧
    ((createShader abEnv [] "f" ["st", "time"]).node.auto_update_time =
      (isReady (createShader abEnv [] "f" ["st", "time"]).node &&
        (["st", "time"] : List String).any (fun a => extractBaseVariable a == "time")) ∧
    (createShader abEnv [] "f" ["st", "time"]).node.auto_update_resolution =
      (isReady (createShader abEnv [] "f" ["st", "time"]).node &&
        (["st", "time"] : List String).any (fun a => extractBaseVariable a == "st")) ∧
    (createShader abEnv [] "f" ["st", "time"]).cache =
      (if isReady (createShader abEnv [] "f" ["st", "time"]).node then
        (generateCacheKey "f" ["st", "time"], (createShader abEnv [] "f" ["st", "time"]).node) :: []
       else [])) :=
  ⟨fun _sh h => Option.noConfusion h,
   createShader_flags_from_toplevel_scan_on_success abEnv [] "f" ["st", "time"]
     (fun _sh h => Option.noConfusion h)⟩

/-- C7 counterexample: a successful createShader call whose only argument
contains time inside a nested expression (the variable scan of the
expression parser finds it) still leaves the time auto-update flag unset,
because createShader only inspects the top-level base name of each
argument. -/
theorem createShader_nested_time_not_scanned :
    ("time".data ∈ scanVars "sin(time*2)".data) ∧
    ("time" ∈ extractDependenciesManually "sin(time*2)") ∧
    isReady (createShader abEnv [] "f" ["sin(time*2)"]).node = true ∧
    (createShader abEnv [] "f" ["sin(time*2)"]).node.auto_update_time = false := by
  refine ⟨by decide, by decide, by decide, by decide⟩

/-- C10: the cache key is not injective: the distinct requests
(f, [a, b]) and (f, [a_b]) share the key f_a_b, and after a successful
creation for (f, [a, b]) the call for (f, [a_b]) is served the cached
artifact of the other request (its stored argument list is [a, b]). -/
theorem generateCacheKey_collision_serves_other_request :
    generateCacheKey "f" ["a", "b"] = generateCacheKey "f" ["a_b"] ∧
    (["a", "b"] : List String) ≠ ["a_b"] ∧
    isReady (createShader abEnv [] "f" ["a", "b"]).node = true ∧
    (createShader abEnv (createShader abEnv [] "f" ["a", "b"]).cache "f" ["a_b"]).node =
      (createShader abEnv [] "f" ["a", "b"]).node ∧
    (createShader abEnv (createShader abEnv [] "f" ["a", "b"]).cache "f" ["a_b"]).node.arguments
      = ["a", "b"] := by
  refine ⟨by decide, by decide, by decide, by decide, by decide⟩

-- ================================================================================
-- FunctionDependencyAnalyzer (src/shaderSystem/FunctionDependencyAnalyzer.cpp)
-- ================================================================================

/-- Whitespace set of FunctionDependencyAnalyzer::trim: space, tab,
newline, carriage return. -/
def isTrimChar (c : Char) : Bool := c = ' ' || c = '\t' || c = '\n' || c = '\r'

/-- FunctionDependencyAnalyzer::trim on character lists. -/
def trimChars (l : List Char) : List Char :=
  ((splitRun isTrimChar ((splitRun isTrimChar l).2).reverse).2).reverse

theorem trimChars_length_le (l : List Char) : (trimChars l).length ≤ l.length := by
  unfold trimChars
  calc ((splitRun isTrimChar ((splitRun isTrimChar l).2).reverse).2).reverse.length
      = (splitRun isTrimChar ((splitRun isTrimChar l).2).reverse).2.length := by
        rw [List.length_reverse]
    _ ≤ ((splitRun isTrimChar l).2).reverse.length := splitRun_snd_length_le _ _
    _ = ((splitRun isTrimChar l).2).length := by rw [List.length_reverse]
    _ ≤ l.length := splitRun_snd_length_le _ _

/-- Loop of FunctionDependencyAnalyzer::parseArgumentList: split at
top-level commas, tracking parenthesis depth in a C++ int, trimming each
piece and dropping empty pieces. The current piece is accumulated in
reverse. -/
def palAux : List Char → Int → List Char → List String
  | [], _, cur =>
    let t := trimChars cur.reverse
    if t.isEmpty then [] else [chars t]
  | c :: rest, depth, cur =>
    if c = '(' then palAux rest (depth + 1) (c :: cur)
    else if c = ')' then palAux rest (depth - 1) (c :: cur)
    else if c = ',' && depth == 0 then
      let t := trimChars cur.reverse
      (if t.isEmpty then [] else [chars t]) ++ palAux rest depth []
    else palAux rest depth (c :: cur)

/-- FunctionDependencyAnalyzer::parseArgumentList. -/
def parseArgumentList (raw : String) : List String :=
  if raw.data.isEmpty then [] else palAux raw.data 0 []

theorem palAux_length_le (l : List Char) :
    ∀ (depth : Int) (cur : List Char) (s : String), s ∈ palAux l depth cur →
      s.data.length ≤ l.length + cur.length := by
  induction l with
  | nil =>
    intro depth cur s hs
    unfold palAux at hs
    by_cases he : (trimChars cur.reverse).isEmpty
    · simp [he] at hs
    · simp [he] at hs
      subst hs
      calc (chars (trimChars cur.reverse)).data.length
          = (trimChars cur.reverse).length := rfl
        _ ≤ cur.reverse.length := trimChars_length_le _
        _ = cur.length := by rw [List.length_reverse]
        _ ≤ [].length + cur.length := by simp
  | cons c rest ih =>
    intro depth cur s hs
    unfold palAux at hs
    by_cases h1 : c = '('
    · simp only [h1, if_true] at hs
      have := ih (depth + 1) ('(' :: cur) s hs
      simp only [List.length_cons, List.length_nil] at this ⊢
      omega
    · by_cases h2 : c = ')'
      · simp only [h1, h2, if_false, if_true] at hs
        have := ih (depth - 1) (')' :: cur) s hs
        simp only [List.length_cons, List.length_nil] at this ⊢
        omega
      · by_cases h3 : (decide (c = ',') && depth == 0) = true
        · simp only [h1, h2, h3, if_false, if_true] at hs
          rcases List.mem_append.mp hs with hemit | hrec
          · by_cases he : (trimChars cur.reverse).isEmpty
            · simp [he] at hemit
            · simp [he] at hemit
              subst hemit
              calc (chars (trimChars cur.reverse)).data.length
                  = (trimChars cur.reverse).length := rfl
                _ ≤ cur.reverse.length := trimChars_length_le _
                _ = cur.length := by rw [List.length_reverse]
                _ ≤ (c :: rest).length + cur.length := by simp
          · have := ih depth [] s hrec
            simp only [List.length_cons, List.length_nil] at this ⊢
            omega
        · simp only [h1, h2, h3, if_false] at hs
          have := ih depth (c :: cur) s hs
          simp only [List.length_cons, List.length_nil] at this ⊢
          omega

theorem parseArgumentList_length_lt (raw : String) (s : String)
    (hs : s ∈ parseArgumentList raw) : s.data.length ≤ raw.data.length := by
  unfold parseArgumentList at hs
  by_cases he : raw.data.isEmpty
  · simp [he] at hs
  · simp only [he, if_false, Bool.false_eq_true] at hs
    have := palAux_length_le raw.data 0 [] s hs
    simpa using this

/-- FunctionDependencyAnalyzer::findMatchingParenthesis, phrased on the
text after the opening parenthesis: split it into the span up to the
matching closing parenthesis and the remainder after it; none when the
parentheses are unmatched. -/
def findCloseSplit : List Char → Nat → Option (List Char × List Char)
  | [], _ => none
  | c :: rest, depth =>
    if c = '(' then (findCloseSplit rest (depth + 1)).map (fun p => (c :: p.1, p.2))
    else if c = ')' then
      if depth = 0 then some ([], rest)
      else (findCloseSplit rest (depth - 1)).map (fun p => (c :: p.1, p.2))
    else (findCloseSplit rest depth).map (fun p => (c :: p.1, p.2))

theorem findCloseSplit_length (l : List Char) :
    ∀ (d : Nat) (p : List Char × List Char), findCloseSplit l d = some p →
      p.1.length < l.length := by
  induction l with
  | nil =>
    intro d p h
    exact absurd h (fun hc => Option.noConfusion hc)
  | cons c rest ih =>
    intro d p h
    unfold findCloseSplit at h
    by_cases h1 : c = '('
    · rw [if_pos h1] at h
      cases hr : findCloseSplit rest (d + 1) with
      | none =>
        rw [hr] at h
        exact absurd h (fun hc => Option.noConfusion hc)
      | some q =>
        rw [hr] at h
        have hpq : ((c :: q.1, q.2) : List Char × List Char) = p := Option.some.inj h
        have hlt := ih (d + 1) q hr
        rw [← hpq]
        simp only [List.length_cons]
        omega
    · rw [if_neg h1] at h
      by_cases h2 : c = ')'
      · rw [if_pos h2] at h
        by_cases h3 : d = 0
        · rw [if_pos h3] at h
          have hpq : (([], rest) : List Char × List Char) = p := Option.some.inj h
          rw [← hpq]
          simp
        · rw [if_neg h3] at h
          cases hr : findCloseSplit rest (d - 1) with
          | none =>
            rw [hr] at h
            exact absurd h (fun hc => Option.noConfusion hc)
          | some q =>
            rw [hr] at h
            have hpq : ((c :: q.1, q.2) : List Char × List Char) = p := Option.some.inj h
            have hlt := ih (d - 1) q hr
            rw [← hpq]
            simp only [List.length_cons]
            omega
      · rw [if_neg h2] at h
        cases hr : findCloseSplit rest d with
        | none =>
          rw [hr] at h
          exact absurd h (fun hc => Option.noConfusion hc)
        | some q =>
          rw [hr] at h
          have hpq : ((c :: q.1, q.2) : List Char × List Char) = p := Option.some.inj h
          have hlt := ih d q hr
          rw [← hpq]
          simp only [List.length_cons]
          omega

/-- States of the character automaton implementing the std::sregex_iterator
loop for the function-call pattern of
FunctionDependencyAnalyzer::extractFunctionCalls: an identifier at a word
boundary, optional whitespace, then an opening parenthesis. -/
inductive CallScanMode where
  | outside (prevW : Bool)
  | inWord (acc : List Char)
  | spaces (acc : List Char)

/-- Call-pattern automaton: produces (function name, text between its
matching parentheses) pairs in match order; a call whose parentheses are
unmatched is skipped, and scanning always resumes right after the opening
parenthesis, so nested calls are also emitted. -/
def scanCallsA : List Char → CallScanMode → List (List Char × List Char)
  | [], _ => []
  | c :: rest, mode =>
    (match mode with
     | .outside prevW =>
       if !prevW && identStartChar c then scanCallsA rest (.inWord [c])
       else scanCallsA rest (.outside (wordChar c))
     | .inWord acc =>
       if wordChar c then scanCallsA rest (.inWord (acc ++ [c]))
       else if cIsSpace c then scanCallsA rest (.spaces acc)
       else if c = '(' then
         (match findCloseSplit rest 0 with
          | some p => (acc, p.1) :: scanCallsA rest (.outside false)
          | none => scanCallsA rest (.outside false))
       else scanCallsA rest (.outside (wordChar c))
     | .spaces acc =>
       if cIsSpace c then scanCallsA rest (.spaces acc)
       else if c = '(' then
         (match findCloseSplit rest 0 with
          | some p => (acc, p.1) :: scanCallsA rest (.outside false)
          | none => scanCallsA rest (.outside false))
       else if identStartChar c then scanCallsA rest (.inWord [c])
       else scanCallsA rest (.outside (wordChar c)))

theorem scanCallsA_content_length (l : List Char) :
    ∀ (mode : CallScanMode) (p : List Char × List Char), p ∈ scanCallsA l mode →
      p.2.length < l.length := by
  induction l with
  | nil =>
    intro mode p hp
    cases mode <;> exact absurd hp (List.not_mem_nil p)
  | cons c rest ih =>
    intro mode p hp
    have hemit : ∀ (acc : List Char),
        p ∈ (match findCloseSplit rest 0 with
          | some q => (acc, q.1) :: scanCallsA rest (.outside false)
          | none => scanCallsA rest (.outside false)) →
        p.2.length < (c :: rest).length := by
      intro acc hmem
      cases hr : findCloseSplit rest 0 with
      | none =>
        rw [hr] at hmem
        have := ih (.outside false) p hmem
        simp only [List.length_cons]
        omega
      | some q =>
        rw [hr] at hmem
        rcases List.mem_cons.mp hmem with hhead | htail
        · subst hhead
          have := findCloseSplit_length rest 0 q hr
          simp only [List.length_cons]
          omega
        · have := ih (.outside false) p htail
          simp only [List.length_cons]
          omega
    have hskip : ∀ (mode2 : CallScanMode), p ∈ scanCallsA rest mode2 →
        p.2.length < (c :: rest).length := by
      intro mode2 hmem
      have := ih mode2 p hmem
      simp only [List.length_cons]
      omega
    cases mode with
    | outside prevW =>
      rw [show scanCallsA (c :: rest) (.outside prevW) =
          (if !prevW && identStartChar c then scanCallsA rest (.inWord [c])
           else scanCallsA rest (.outside (wordChar c))) from rfl] at hp
      by_cases hb : (!prevW && identStartChar c) = true
      · rw [if_pos hb] at hp
        exact hskip _ hp
      · rw [if_neg hb] at hp
        exact hskip _ hp
    | inWord acc =>
      rw [show scanCallsA (c :: rest) (.inWord acc) =
          (if wordChar c then scanCallsA rest (.inWord (acc ++ [c]))
           else if cIsSpace c then scanCallsA rest (.spaces acc)
           else if c = '(' then
             (match findCloseSplit rest 0 with
              | some q => (acc, q.1) :: scanCallsA rest (.outside false)
              | none => scanCallsA rest (.outside false))
           else scanCallsA rest (.outside (wordChar c))) from rfl] at hp
      by_cases hb : wordChar c = true
      · rw [if_pos hb] at hp
        exact hskip _ hp
      · rw [if_neg hb] at hp
        by_cases hsp : cIsSpace c = true
        · rw [if_pos hsp] at hp
          exact hskip _ hp
        · rw [if_neg hsp] at hp
          by_cases hpar : c = '('
          · rw [if_pos hpar] at hp
            exact hemit acc hp
          · rw [if_neg hpar] at hp
            exact hskip _ hp
    | spaces acc =>
      rw [show scanCallsA (c :: rest) (.spaces acc) =
          (if cIsSpace c then scanCallsA rest (.spaces acc)
           else if c = '(' then
             (match findCloseSplit rest 0 with
              | some q => (acc, q.1) :: scanCallsA rest (.outside false)
              | none => scanCallsA rest (.outside false))
           else if identStartChar c then scanCallsA rest (.inWord [c])
           else scanCallsA rest (.outside (wordChar c))) from rfl] at hp
      by_cases hsp : cIsSpace c = true
      · rw [if_pos hsp] at hp
        exact hskip _ hp
      · rw [if_neg hsp] at hp
        by_cases hpar : c = '('
        · rw [if_pos hpar] at hp
          exact hemit acc hp
        · rw [if_neg hpar] at hp
          by_cases hid : identStartChar c = true
          · rw [if_pos hid] at hp
            exact hskip _ hp
          · rw [if_neg hid] at hp
            exact hskip _ hp

/-- FunctionDependencyAnalyzer::extractFunctionArguments. -/
def extractFunctionArguments (s : String) : List String :=
  if s.data.isEmpty then [] else parseArgumentList s

/-- FunctionDependencyAnalyzer::extractFunctionCalls: every function-call
pattern match, with its name and its comma-split argument list. -/
def extractFunctionCalls (expr : String) : List (String × List String) :=
  (scanCallsA expr.data (.outside false)).map
    (fun p => (chars p.1, extractFunctionArguments (chars p.2)))

theorem extractFunctionCalls_arg_length (expr : String)
    (call : String × List String) (hc : call ∈ extractFunctionCalls expr)
    (a : String) (ha : a ∈ call.2) : a.data.length < expr.data.length := by
  unfold extractFunctionCalls at hc
  rcases List.mem_map.mp hc with ⟨p, hp, hpc⟩
  have hlen := scanCallsA_content_length expr.data (.outside false) p hp
  subst hpc
  simp only at ha
  unfold extractFunctionArguments at ha
  by_cases he : (chars p.2).data.isEmpty
  · simp [he] at ha
  · simp only [he, if_false, Bool.false_eq_true] at ha
    have := parseArgumentList_length_lt (chars p.2) a ha
    simp only [data_chars] at this
    omega

/-- Fueled form of FunctionDependencyAnalyzer::findAllDependencies: the
multiset of function names discovered by recursing through every call's
arguments, in discovery order. One fuel unit is spent per nesting level;
every argument is strictly shorter than its enclosing expression, so
expression length bounds the recursion depth. -/
def foundF : Nat → String → List String
  | 0, _ => []
  | fuel + 1, expr =>
    (extractFunctionCalls expr).flatMap (fun call =>
      call.1 :: call.2.flatMap (fun a => foundF fuel a))

theorem flatMap_congr_mem {α β : Type} (l : List α) (f g : α → List β)
    (h : ∀ x ∈ l, f x = g x) : l.flatMap f = l.flatMap g := by
  induction l with
  | nil => rfl
  | cons x rest ih =>
    simp only [List.flatMap_cons]
    rw [h x (List.mem_cons_self x rest), ih (fun y hy => h y (List.mem_cons_of_mem x hy))]

theorem foundF_congr (n : Nat) :
    ∀ (f1 f2 : Nat) (expr : String), expr.data.length ≤ n →
      expr.data.length < f1 → expr.data.length < f2 →
      foundF f1 expr = foundF f2 expr := by
  induction n with
  | zero =>
    intro f1 f2 expr hn h1 h2
    cases f1 with
    | zero => omega
    | succ g1 =>
      cases f2 with
      | zero => omega
      | succ g2 =>
        rw [foundF, foundF]
        apply flatMap_congr_mem
        intro call hc
        have hnil : expr.data.length = 0 := Nat.le_zero.mp hn
        have : ∀ a ∈ call.2, False := by
          intro a ha
          have := extractFunctionCalls_arg_length expr call hc a ha
          omega
        congr 1
        apply flatMap_congr_mem
        intro a ha
        exact absurd ha (fun hx => this a hx)
  | succ m ih =>
    intro f1 f2 expr hn h1 h2
    cases f1 with
    | zero => omega
    | succ g1 =>
      cases f2 with
      | zero => omega
      | succ g2 =>
        rw [foundF, foundF]
        apply flatMap_congr_mem
        intro call hc
        congr 1
        apply flatMap_congr_mem
        intro a ha
        have halt := extractFunctionCalls_arg_length expr call hc a ha
        exact ih g1 g2 a (by omega) (by omega) (by omega)

/-- FunctionDependencyAnalyzer::findAllDependencies for one expression:
the canonical instance of the fueled scan at always-sufficient fuel. -/
def findAllDeps (expr : String) : List String := foundF (expr.data.length + 1) expr

/-- Faithfulness of the fuel: findAllDeps satisfies exactly the recursion
of the C++ findAllDependencies (names of every call, then recursion into
each of its arguments). -/
theorem findAllDeps_eq (expr : String) :
    findAllDeps expr = (extractFunctionCalls expr).flatMap (fun call =>
      call.1 :: call.2.flatMap (fun a => findAllDeps a)) := by
  unfold findAllDeps
  rw [foundF]
  apply flatMap_congr_mem
  intro call hc
  congr 1
  apply flatMap_congr_mem
  intro a ha
  have halt := extractFunctionCalls_arg_length expr call hc a ha
  exact foundF_congr a.data.length expr.data.length (a.data.length + 1) a (le_refl _)
    (by omega) (by omega)

/-- The ordered set all_found_functions of
FunctionDependencyAnalyzer::analyzeCreateMessage step 3: every function
name discovered in any of the top-level arguments, at any nesting depth. -/
def allFoundFunctions (args : List String) : List String :=
  setOfList (args.flatMap (fun arg => findAllDeps arg))

/-- Classification verdicts (FunctionClassification). -/
inductive FunctionClassification where
  | GLSL_BUILTIN
  | PLUGIN_FUNCTION
  | UNKNOWN_FUNCTION
deriving DecidableEq

/-- ClassifiedFunction record. -/
structure ClassifiedFunction where
  function_name : String
  classification : FunctionClassification
  plugin_name : String
  error_message : String
deriving DecidableEq

/-- FunctionDependencyAnalyzer::classifyFunction: GLSL builtin first, then
plugin lookup (resolving the owning alias through the functions-by-plugin
map), else unknown with the offending name in the message. -/
def classifyFunction (t : PluginTable) (fn : String) : ClassifiedFunction :=
  if isBuiltinFunction fn then ⟨fn, .GLSL_BUILTIN, "", ""⟩
  else
    match findFunction t fn with
    | some _ =>
      match (functionsByPlugin t).find? (fun p => p.2.contains fn) with
      | some p => ⟨fn, .PLUGIN_FUNCTION, p.1, ""⟩
      | none => ⟨fn, .PLUGIN_FUNCTION, "unknown_plugin", ""⟩
    | none =>
      ⟨fn, .UNKNOWN_FUNCTION, "",
        "Function '" ++ fn ++ "' not found in GLSL built-ins or plugins"⟩

/-- DependencyAnalysisResult record. -/
structure DependencyAnalysisResult where
  main_function : String
  final_arguments : List String
  required_plugin_functions : List String
  used_builtin_functions : List String
  classified_functions : List (String × ClassifiedFunction)
  function_calls : List (String × List String)
  is_valid : Bool
  error_message : String
deriving DecidableEq

/-- One successful iteration of step 4 of analyzeCreateMessage: record the
classification and accumulate the name into the plugin or builtin set. -/
def classifyStep (t : PluginTable) (fnName : String)
    (r : DependencyAnalysisResult) : DependencyAnalysisResult :=
  let cf := classifyFunction t fnName
  let r1 : DependencyAnalysisResult :=
    { r with classified_functions := mapInsertSorted fnName cf r.classified_functions }
  if cf.classification = .PLUGIN_FUNCTION then
    { r1 with required_plugin_functions := setInsert fnName r1.required_plugin_functions }
  else if cf.classification = .GLSL_BUILTIN then
    { r1 with used_builtin_functions := setInsert fnName r1.used_builtin_functions }
  else r1

/-- Step 4 of analyzeCreateMessage: classify every discovered function in
ascending set order, aborting at the first unknown with its message;
plugin functions and builtins are accumulated into their ordered sets. The
Bool reports whether the loop completed. -/
def classifyLoop (t : PluginTable) :
    List String → DependencyAnalysisResult → Bool × DependencyAnalysisResult
  | [], r => (true, r)
  | fnName :: rest, r =>
    let cf := classifyFunction t fnName
    if cf.classification = .UNKNOWN_FUNCTION then
      (false,
        { r with
          classified_functions := mapInsertSorted fnName cf r.classified_functions
          error_message := cf.error_message })
    else classifyLoop t rest (classifyStep t fnName r)

/-- The analysis record before the classification loop of
analyzeCreateMessage: invalid until every step has completed, carrying the
parsed top-level arguments and the classified main function. -/
def analysisInit (main : String) (mc : ClassifiedFunction)
    (args : List String) : DependencyAnalysisResult :=
  { main_function := main, final_arguments := args, required_plugin_functions := [],
    used_builtin_functions := [], classified_functions := mapInsertSorted main mc [],
    function_calls := [], is_valid := false, error_message := "" }

/-- Steps 5-7 of analyzeCreateMessage once every classification succeeded:
record the main function in its set, store the call-site map for every
top-level argument, and mark the result valid. -/
def finalizeAnalysis (args : List String) (main : String) (mc : ClassifiedFunction)
    (r : DependencyAnalysisResult) : DependencyAnalysisResult :=
  let r5 : DependencyAnalysisResult :=
    if mc.classification = .PLUGIN_FUNCTION then
      { r with required_plugin_functions := setInsert main r.required_plugin_functions }
    else if mc.classification = .GLSL_BUILTIN then
      { r with used_builtin_functions := setInsert main r.used_builtin_functions }
    else r
  let r6 : DependencyAnalysisResult :=
    { r5 with function_calls :=
      args.foldl (fun acc arg => (extractFunctionCalls arg).foldl
        (fun acc2 call => mapInsertSorted call.1 call.2 acc2) acc) [] }
  { r6 with is_valid := true }

/-- FunctionDependencyAnalyzer::analyzeCreateMessage: classify the main
function (unknown aborts), split the raw argument text at top-level
commas, discover and classify every nested function name (the first
unknown in set order aborts with its message), and only when everything
classified finalize a valid result. -/
def analyzeCreateMessage (t : PluginTable) (main raw : String) : DependencyAnalysisResult :=
  let mc := classifyFunction t main
  if mc.classification = .UNKNOWN_FUNCTION then
    { main_function := main, final_arguments := [], required_plugin_functions := [],
      used_builtin_functions := [], classified_functions := [], function_calls := [],
      is_valid := false, error_message := mc.error_message }
  else
    let args := parseArgumentList raw
    match classifyLoop t (allFoundFunctions args) (analysisInit main mc args) with
    | (false, r) => r
    | (true, r) => finalizeAnalysis args main mc r

theorem classify_unknown_message (t : PluginTable) (w : String)
    (h : (classifyFunction t w).classification = .UNKNOWN_FUNCTION) :
    (classifyFunction t w).error_message =
      "Function '" ++ w ++ "' not found in GLSL built-ins or plugins" := by
  unfold classifyFunction at h ⊢
  by_cases hb : isBuiltinFunction w = true
  · rw [if_pos hb] at h
    exact absurd h (by simp)
  · rw [if_neg hb] at h ⊢
    cases hf : findFunction t w with
    | some fm =>
      rw [hf] at h
      cases hp : (functionsByPlugin t).find? (fun p => p.2.contains w) with
      | some p =>
        rw [hp] at h
        exact absurd h (by simp)
      | none =>
        rw [hp] at h
        exact absurd h (by simp)
    | none => rfl

theorem classifyLoop_unknown (t : PluginTable) :
    ∀ (l : List String) (r : DependencyAnalysisResult),
    (∃ u ∈ l, (classifyFunction t u).classification = .UNKNOWN_FUNCTION) →
    (classifyLoop t l r).1 = false ∧
    (classifyLoop t l r).2.is_valid = r.is_valid ∧
    ∃ w ∈ l, (classifyFunction t w).classification = .UNKNOWN_FUNCTION ∧
      (classifyLoop t l r).2.error_message = (classifyFunction t w).error_message := by
  intro l
  induction l with
  | nil =>
    intro r hex
    obtain ⟨u, hu, _⟩ := hex
    exact absurd hu (List.not_mem_nil u)
  | cons fnName rest ih =>
    intro r hex
    by_cases hc : (classifyFunction t fnName).classification = .UNKNOWN_FUNCTION
    · have hred : classifyLoop t (fnName :: rest) r =
          (false,
            { r with
              classified_functions :=
                mapInsertSorted fnName (classifyFunction t fnName) r.classified_functions
              error_message := (classifyFunction t fnName).error_message }) := by
        unfold classifyLoop
        dsimp only
        rw [if_pos hc]
        try rfl
      rw [hred]
      exact ⟨rfl, rfl, fnName, List.mem_cons_self fnName rest, hc, rfl⟩
    · obtain ⟨u, hu, hclass⟩ := hex
      have hu2 : u ∈ rest := by
        rcases List.mem_cons.mp hu with h1 | h2
        · subst h1
          exact absurd hclass hc
        · exact h2
      have hvstep : (classifyStep t fnName r).is_valid = r.is_valid := by
        unfold classifyStep
        dsimp only
        split
        · rfl
        · split <;> rfl
      have hstep : classifyLoop t (fnName :: rest) r =
          classifyLoop t rest (classifyStep t fnName r) := by
        conv_lhs => rw [classifyLoop]
        rw [if_neg hc]
      obtain ⟨hfalse, hvalid, w, hw, hwu, herr⟩ := ih (classifyStep t fnName r) ⟨u, hu2, hclass⟩
      rw [hstep]
      exact ⟨hfalse, hvalid.trans hvstep, w, List.mem_cons_of_mem fnName hw, hwu, herr⟩

/-- C5: whenever the main function or any function name discovered at any
nesting depth in the arguments classifies as neither a GLSL builtin nor a
plugin function, analyzeCreateMessage returns an invalid result, and its
error message contains an offending (unknown) function name; no valid
result is produced. -/
theorem analyzeCreateMessage_unknown_aborts (t : PluginTable) (main raw : String)
    (h : ∃ u, (u = main ∨ u ∈ allFoundFunctions (parseArgumentList raw)) ∧
      (classifyFunction t u).classification = .UNKNOWN_FUNCTION) :
    (analyzeCreateMessage t main raw).is_valid = false ∧
    ∃ w, (w = main ∨ w ∈ allFoundFunctions (parseArgumentList raw)) ∧
      (classifyFunction t w).classification = .UNKNOWN_FUNCTION ∧
      StrContains (analyzeCreateMessage t main raw).error_message w := by
  by_cases hm : (classifyFunction t main).classification = .UNKNOWN_FUNCTION
  · have hred : analyzeCreateMessage t main raw =
        { main_function := main, final_arguments := [], required_plugin_functions := [],
          used_builtin_functions := [], classified_functions := [], function_calls := [],
          is_valid := false, error_message := (classifyFunction t main).error_message } := by
      unfold analyzeCreateMessage
      dsimp only
      rw [if_pos hm]
    refine ⟨by rw [hred], main, Or.inl rfl, hm, ?_⟩
    rw [hred]
    show StrContains (classifyFunction t main).error_message main
    rw [classify_unknown_message t main hm]
    exact ⟨"Function '".data, "' not found in GLSL built-ins or plugins".data,
      by simp [StrContains, String.data_append]⟩
  · obtain ⟨u, hu, hclass⟩ := h
    have hu2 : u ∈ allFoundFunctions (parseArgumentList raw) := by
      rcases hu with h1 | h2
      · subst h1
        exact absurd hclass hm
      · exact h2
    obtain ⟨hfalse, hvalid, w, hwmem, hwu, herr⟩ :=
      classifyLoop_unknown t (allFoundFunctions (parseArgumentList raw))
        (analysisInit main (classifyFunction t main) (parseArgumentList raw))
        ⟨u, hu2, hclass⟩
    have hred : analyzeCreateMessage t main raw =
        (classifyLoop t (allFoundFunctions (parseArgumentList raw))
          (analysisInit main (classifyFunction t main) (parseArgumentList raw))).2 := by
      unfold analyzeCreateMessage
      dsimp only
      rw [if_neg hm]
      rcases hres : classifyLoop t (allFoundFunctions (parseArgumentList raw))
        (analysisInit main (classifyFunction t main) (parseArgumentList raw)) with ⟨b, rr⟩
      cases b
      · rfl
      · rw [hres] at hfalse
        exact absurd hfalse (by simp)
    refine ⟨?_, w, Or.inr hwmem, hwu, ?_⟩
    · rw [hred, hvalid]
      rfl
    · rw [hred, herr, classify_unknown_message t w hwu]
      exact ⟨"Function '".data, "' not found in GLSL built-ins or plugins".data,
        by simp [StrContains, String.data_append]⟩

/-- C5 witness: with no plugins loaded, the call foo(bar(st), 2) has both
foo and the nested bar unknown; the analysis is invalid and reports an
offending name. -/
theorem analyzeCreateMessage_unknown_aborts_witness :
    (∃ u, (u = "foo" ∨ u ∈ allFoundFunctions (parseArgumentList "bar(st), 2")) ∧
      (classifyFunction ([] : PluginTable) u).classification = .UNKNOWN_FUNCTION) ∧
    ((analyzeCreateMessage ([] : PluginTable) "foo" "bar(st), 2").is_valid = false ∧
    ∃ w, (w = "foo" ∨ w ∈ allFoundFunctions (parseArgumentList "bar(st), 2")) ∧
      (classifyFunction ([] : PluginTable) w).classification = .UNKNOWN_FUNCTION ∧
      StrContains (analyzeCreateMessage ([] : PluginTable) "foo" "bar(st), 2").error_message w) :=
  ⟨⟨"foo", Or.inl rfl, by decide⟩,
   analyzeCreateMessage_unknown_aborts ([] : PluginTable) "foo" "bar(st), 2"
     ⟨"foo", Or.inl rfl, by decide⟩⟩

-- ================================================================================
-- ShaderCompositionEngine (src/shaderSystem/ShaderCompositionEngine.cpp)
-- ================================================================================

/-- CompositionNode struct: function metadata plus the dependency
information populated by resolveDependencies. C++ stores input_nodes as
pointers into pending_nodes; the model stores the node ids. -/
structure CompositionNode where
  function_name : String
  arguments : List String
  input_nodes : List String
  node_id : String
  resolved_arguments : List String
  is_external_dependency : Bool
deriving DecidableEq

/-- CompositionNode constructor: dependency fields start empty. -/
def mkCompositionNode (func_name : String) (args : List String) (id : String) :
    CompositionNode :=
  { function_name := func_name, arguments := args, input_nodes := [],
    node_id := id, resolved_arguments := [], is_external_dependency := false }

/-- The pending_nodes map of ShaderCompositionEngine, as an association
list looked up by lookupAssoc. -/
abbrev NodeTable := List (String × CompositionNode)

/-- Attempt of the shader_\w+ part of the reference regex at the head of
the text: the literal shader_ followed by a maximal nonempty word-character
run, which is capture group 1. -/
def shaderRefAt (cs : List Char) : Option String :=
  if "shader_".data.isPrefixOf cs then
    let run := (cs.drop 7).takeWhile wordChar
    if run.isEmpty then none
    else some (chars ("shader_".data ++ run))
  else none

/-- Scan for the leftmost dollar sign followed by a shader_\w+ match, as
regex_search continues trying later start positions. -/
def scanDollar : List Char → Option String
  | [] => none
  | c :: rest =>
    if c = '$' then
      match shaderRefAt rest with
      | some r => some r
      | none => scanDollar rest
    else scanDollar rest

/-- One regex_search of an argument with (?:^|\$)(shader_\w+): the
anchored alternative can only fire at position 0, every later start
position needs a literal dollar before the reference; the leftmost match
wins and the returned string is capture group 1. -/
def findShaderRef (arg : String) : Option String :=
  match shaderRefAt arg.data with
  | some r => some r
  | none => scanDollar arg.data

/-- The reference ids the resolveDependencies loop extracts from an
argument list: at most one per argument because it uses one regex_search,
in argument order. -/
def extractRefs (args : List String) : List String := args.filterMap findShaderRef

/-- Loop body of ShaderCompositionEngine::resolveDependencies: each
argument's reference is looked up in pending_nodes; a missing referenced
node makes the whole resolution fail (the C++ returns false). -/
def collectRefs (t : NodeTable) : List String → Option (List String)
  | [] => some []
  | arg :: rest =>
    match findShaderRef arg with
    | none => collectRefs t rest
    | some refId =>
      match lookupAssoc t refId with
      | none => none
      | some _ =>
        match collectRefs t rest with
        | none => none
        | some ins => some (refId :: ins)

/-- ShaderCompositionEngine::resolveDependencies on one node: input_nodes
is cleared and recomputed from the arguments, resolved_arguments is the
argument copy the C++ makes, and is_external_dependency is set when a
reference was found. -/
def resolveNode (t : NodeTable) (n : CompositionNode) : Option CompositionNode :=
  match collectRefs t n.arguments with
  | none => none
  | some ins =>
    some { n with
      input_nodes := ins
      resolved_arguments := n.arguments
      is_external_dependency := n.is_external_dependency || !ins.isEmpty }

/-- The resolve-all loop of ShaderCompositionEngine::analyzeDependencies:
every pending node is resolved against the full table; any failure aborts. -/
def resolveAllGo (t : NodeTable) : NodeTable → Option NodeTable
  | [] => some []
  | (k, n) :: rest =>
    match resolveNode t n with
    | none => none
    | some n2 =>
      match resolveAllGo t rest with
      | none => none
      | some r => some ((k, n2) :: r)

/-- Resolution pass over the whole pending_nodes table. -/
def resolveAll (t : NodeTable) : Option NodeTable := resolveAllGo t t

/-- The visited map, recursion-stack map and output vector of
topologicalSort; a bool map initialised to false everywhere is the empty
membership list. -/
structure DfsState where
  visited : List String
  recStack : List String
  sorted : List String
deriving DecidableEq

/-- The two call shapes of topologicalSortDFS: entering a node, and the
dependency loop over the remaining input_nodes of the current node. -/
inductive DfsTask where
  | node : String → DfsTask
  | deps : List String → DfsTask
deriving DecidableEq

/-- Entry bookkeeping of topologicalSortDFS: visited[id] = true and
rec_stack[id] = true. -/
def dfsPush (id : String) (s : DfsState) : DfsState :=
  { visited := id :: s.visited, recStack := id :: s.recStack, sorted := s.sorted }

/-- Exit bookkeeping of topologicalSortDFS: rec_stack[id] = false and
sorted_nodes.push_back(id). -/
def dfsPop (id : String) (s : DfsState) : DfsState :=
  { visited := s.visited, recStack := s.recStack.filter (fun x => !(x == id)),
    sorted := s.sorted ++ [id] }

/-- topologicalSortDFS as a fuel-indexed step function. The C++ recursion
carries no fuel; dfsFuel below is proven large enough that the fuel-out
value none is never the verdict, so some none is the C++ false (cycle or
missing node) and some (some s) the C++ true. -/
def dfsGo (t : NodeTable) : Nat → DfsTask → DfsState → Option (Option DfsState)
  | 0, _, _ => none
  | Nat.succ fuel, DfsTask.node id, s =>
    match lookupAssoc t id with
    | none => some none
    | some node =>
      match dfsGo t fuel (DfsTask.deps node.input_nodes) (dfsPush id s) with
      | none => none
      | some none => some none
      | some (some s2) => some (some (dfsPop id s2))
  | Nat.succ _, DfsTask.deps [], s => some (some s)
  | Nat.succ fuel, DfsTask.deps (dep :: rest), s =>
    if dep ∈ s.visited then
      if dep ∈ s.recStack then some none
      else dfsGo t fuel (DfsTask.deps rest) s
    else
      match dfsGo t fuel (DfsTask.node dep) s with
      | none => none
      | some none => some none
      | some (some s2) => dfsGo t fuel (DfsTask.deps rest) s2

/-- Largest input_nodes length in the table, used to size the fuel. -/
def maxDeps (t : NodeTable) : Nat :=
  t.foldr (fun p m => max p.2.input_nodes.length m) 0

/-- Fuel sufficient for any run of the DFS over table t (dfsGo_init_ne_none). -/
def dfsFuel (t : NodeTable) : Nat := t.length * (maxDeps t + 2) + 1

/-- All bool maps initialised to false, empty output vector. -/
def dfsInit : DfsState := { visited := [], recStack := [], sorted := [] }

/-- ShaderCompositionEngine::topologicalSort: run the DFS from the output
node on fresh maps; some of the sorted vector on true, none on false. -/
def topologicalSortE (t : NodeTable) (out : String) : Option (List String) :=
  match dfsGo t (dfsFuel t) (DfsTask.node out) dfsInit with
  | some (some s) => some s.sorted
  | _ => none

/-- ShaderCompositionEngine::analyzeDependencies: resolve every node, then
topologically sort from the output node; every failure returns the empty
vector. -/
def analyzeDependenciesE (t : NodeTable) (out : String) : List String :=
  match resolveAll t with
  | none => []
  | some r =>
    match topologicalSortE r out with
    | none => []
    | some l => l

/-- Comma join of the argument list inside one generateGraphKey segment. -/
def joinCommaE : List String → String
  | [] => ""
  | a :: rest => rest.foldl (fun acc x => acc ++ "," ++ x) a

/-- One node segment of generateGraphKey: function name and parenthesised
arguments; a missing node contributes nothing (its separator remains). -/
def nodeKeyPart (t : NodeTable) (id : String) : String :=
  match lookupAssoc t id with
  | none => ""
  | some n => n.function_name ++ "(" ++ joinCommaE n.arguments ++ ")"

/-- ShaderCompositionEngine::generateGraphKey: graph_ then the node
segments of the dependency chain joined by underscores. -/
def generateGraphKey (t : NodeTable) (chain : List String) : String :=
  match chain with
  | [] => "graph_"
  | c :: rest =>
    rest.foldl (fun acc id => acc ++ "_" ++ nodeKeyPart t id) ("graph_" ++ nodeKeyPart t c)

/-- External collaborators of compileGraph: generateUnifiedShaderCode
(GLSL assembly over plugin sources, universally quantified here), the GPU
compiler verdict behind ShaderNode::compile, and
BuiltinVariables::isComplexExpression, which is declared in
BuiltinVariables.h but defined nowhere in the repository sources, so it is
carried as an unconstrained parameter. -/
structure CompEnv where
  genUnified : List String → String
  isComplexExpr : String → Bool
  compileOk : String → Bool

/-- The engine state: pending_nodes and compiled_cache. -/
structure EngineState where
  pending_nodes : NodeTable
  compiled_cache : List (String × ShaderNodeM)
deriving DecidableEq

/-- The fixed minimal vertex shader of ShaderNode::setCustomShaderCode. -/
def compositionVertexShader : String :=
  "\n#version 330 core\nlayout (location = 0) in vec3 aPos;\nvoid main() \x7b\n    gl_Position = vec4(aPos, 1.0);\n\x7d\n"

/-- ShaderNode::setCustomShaderCode: minimal vertex shader plus the given
fragment code. -/
def setCustomShaderCode (n : ShaderNodeM) (custom : String) : ShaderNodeM :=
  { n with
    vertex_shader_code := compositionVertexShader
    fragment_shader_code := custom }

/-- The all_arguments vector of compileGraph: the arguments of the chain
nodes in chain order, skipping ids absent from pending_nodes. -/
def allChainArguments (t : NodeTable) : List String → List String
  | [] => []
  | id :: rest =>
    (match lookupAssoc t id with
     | some n => n.arguments
     | none => []) ++ allChainArguments t rest

/-- The uniform scan of compileGraph for one builtin name: a top-level
base-name hit, or, for complex expressions, a hit among the parsed
dependencies. -/
def chainHasVar (env : CompEnv) (mu : MuOracle) (args : List String) (v : String) : Bool :=
  args.any (fun arg =>
    extractBaseVariable arg == v ||
    (env.isComplexExpr arg &&
      (parseExpression mu arg).dependencies.any (fun dep => extractBaseVariable dep == v)))

/-- Tail of compileGraph past the cache check: unified code generation,
node construction, uniform flags, compilation, and caching on success
only. -/
def compileGraphGen (env : CompEnv) (mu : MuOracle) (st : EngineState)
    (chain : List String) (graph_key : String) : Option ShaderNodeM × EngineState :=
  let unified := env.genUnified chain
  if unified == "" then (none, st)
  else
    let node0 := setCustomShaderCode (mkShaderNode "unified_graph" []) unified
    let args := allChainArguments st.pending_nodes chain
    let node1 : ShaderNodeM :=
      { node0 with
        auto_update_time := chainHasVar env mu args "time"
        auto_update_resolution := chainHasVar env mu args "st" }
    let compiled := nodeCompileR (env.compileOk unified) node1
    if compiled.1 then
      (some compiled.2,
        { st with compiled_cache := (graph_key, compiled.2) :: st.compiled_cache })
    else (none, st)

/-- ShaderCompositionEngine::compileGraph: existence check, dependency
analysis, graph-key cache probe, then generation and compilation. -/
def compileGraph (env : CompEnv) (mu : MuOracle) (st : EngineState) (out : String) :
    Option ShaderNodeM × EngineState :=
  if (lookupAssoc st.pending_nodes out).isSome then
    let chain := analyzeDependenciesE st.pending_nodes out
    if chain.isEmpty then (none, st)
    else
      let graph_key := generateGraphKey st.pending_nodes chain
      match cacheLookup st.compiled_cache graph_key with
      | some sh =>
        if isReady sh then (some sh, st)
        else compileGraphGen env mu st chain graph_key
      | none => compileGraphGen env mu st chain graph_key
  else (none, st)

/-- The $shader reference graph of a node table: a references b when the
regex scan of some argument of a yields b. -/
def RefEdge (t : NodeTable) (a b : String) : Prop :=
  ∃ n, lookupAssoc t a = some n ∧ b ∈ extractRefs n.arguments

/-- The dependency graph after resolution: a depends on b when b is among
a's input_nodes. -/
def DepEdge (t : NodeTable) (a b : String) : Prop :=
  ∃ n, lookupAssoc t a = some n ∧ b ∈ n.input_nodes

/-- Strict precedence inside a list: a occurs at a smaller index than b. -/
def Before (l : List String) (a b : String) : Prop :=
  ∃ i j, i < j ∧ l.get? i = some a ∧ l.get? j = some b

theorem dfsGo_node_eq (t : NodeTable) (fuel : Nat) (id : String) (s : DfsState) :
    dfsGo t (fuel + 1) (DfsTask.node id) s =
      match lookupAssoc t id with
      | none => some none
      | some node =>
        match dfsGo t fuel (DfsTask.deps node.input_nodes) (dfsPush id s) with
        | none => none
        | some none => some none
        | some (some s2) => some (some (dfsPop id s2)) := rfl

theorem dfsGo_deps_nil_eq (t : NodeTable) (fuel : Nat) (s : DfsState) :
    dfsGo t (fuel + 1) (DfsTask.deps []) s = some (some s) := rfl

theorem dfsGo_deps_cons_eq (t : NodeTable) (fuel : Nat) (dep : String)
    (rest : List String) (s : DfsState) :
    dfsGo t (fuel + 1) (DfsTask.deps (dep :: rest)) s =
      if dep ∈ s.visited then
        if dep ∈ s.recStack then some none
        else dfsGo t fuel (DfsTask.deps rest) s
      else
        match dfsGo t fuel (DfsTask.node dep) s with
        | none => none
        | some none => some none
        | some (some s2) => dfsGo t fuel (DfsTask.deps rest) s2 := rfl

theorem lookupAssoc_mem {α : Type} (m : List (String × α)) (k : String) (v : α)
    (h : lookupAssoc m k = some v) : (k, v) ∈ m := by
  induction m with
  | nil => exact absurd h (by simp [lookupAssoc])
  | cons p rest ih =>
    unfold lookupAssoc at h
    rw [List.find?] at h
    by_cases hk : p.1 == k
    · rw [hk] at h
      simp only [Option.map_some] at h
      have : p = (k, v) := by
        have h1 : p.1 = k := by
          have := hk
          simpa [beq_iff_eq] using this
        have h2 : p.2 = v := Option.some.inj h
        cases p
        simp_all
      rw [← this]
      exact List.mem_cons_self p rest
    · rw [eq_false_of_ne_true hk] at h
      exact List.mem_cons_of_mem p (ih h)

theorem lookupAssoc_key_mem {α : Type} (m : List (String × α)) (k : String) (v : α)
    (h : lookupAssoc m k = some v) : k ∈ m.map Prod.fst :=
  List.mem_map.mpr ⟨(k, v), lookupAssoc_mem m k v h, rfl⟩

theorem length_filter_mono {α : Type} (l : List α) (p q : α → Bool)
    (h : ∀ a, q a = true → p a = true) :
    (l.filter q).length ≤ (l.filter p).length := by
  induction l with
  | nil => simp
  | cons b rest ih =>
    by_cases hq : q b = true
    · rw [List.filter_cons_of_pos hq, List.filter_cons_of_pos (h b hq)]
      simpa using ih
    · rw [List.filter_cons_of_neg (by simpa using hq)]
      by_cases hp : p b = true
      · rw [List.filter_cons_of_pos hp]
        exact le_trans ih (by simp)
      · rw [List.filter_cons_of_neg (by simpa using hp)]
        exact ih

theorem length_filter_lt {α : Type} (l : List α) (p q : α → Bool)
    (h : ∀ a, q a = true → p a = true) (a : α) (ha : a ∈ l)
    (hpa : p a = true) (hqa : q a = false) :
    (l.filter q).length < (l.filter p).length := by
  induction l with
  | nil => exact absurd ha (List.not_mem_nil a)
  | cons b rest ih =>
    rcases List.mem_cons.mp ha with hb | hb
    · subst hb
      rw [List.filter_cons_of_neg (by simp [hqa]), List.filter_cons_of_pos hpa]
      exact Nat.lt_succ_of_le (length_filter_mono rest p q h)
    · by_cases hq : q b = true
      · rw [List.filter_cons_of_pos hq, List.filter_cons_of_pos (h b hq)]
        simpa using ih hb
      · rw [List.filter_cons_of_neg (by simpa using hq)]
        by_cases hp : p b = true
        · rw [List.filter_cons_of_pos hp]
          exact Nat.lt_succ_of_lt (ih hb)
        · rw [List.filter_cons_of_neg (by simpa using hp)]
          exact ih hb

/-- Number of table keys not yet visited; the DFS termination measure. -/
def unvis (t : NodeTable) (s : DfsState) : Nat :=
  ((t.map Prod.fst).filter (fun k => decide (k ∉ s.visited))).length

theorem unvis_le_of_subset (t : NodeTable) (s s2 : DfsState)
    (h : ∀ x, x ∈ s.visited → x ∈ s2.visited) : unvis t s2 ≤ unvis t s := by
  refine length_filter_mono _ _ _ ?_
  intro a hq
  simp only [decide_eq_true_eq] at hq ⊢
  exact fun hv => hq (h a hv)

theorem unvis_push_lt (t : NodeTable) (s : DfsState) (id : String)
    (hid : id ∉ s.visited) (hk : id ∈ t.map Prod.fst) :
    unvis t (dfsPush id s) < unvis t s := by
  refine length_filter_lt _ _ _ ?_ id hk ?_ ?_
  · intro a hq
    simp only [decide_eq_true_eq, dfsPush] at hq ⊢
    exact fun hv => hq (List.mem_cons_of_mem id hv)
  · simpa using hid
  · simp [dfsPush]

theorem unvis_pos (t : NodeTable) (s : DfsState) (id : String)
    (hid : id ∉ s.visited) (hk : id ∈ t.map Prod.fst) : 1 ≤ unvis t s := by
  have : id ∈ (t.map Prod.fst).filter (fun k => decide (k ∉ s.visited)) :=
    List.mem_filter.mpr ⟨hk, by simpa using hid⟩
  have := List.length_pos.mpr (List.ne_nil_of_mem this)
  exact this

theorem unvis_init (t : NodeTable) : unvis t dfsInit = t.length := by
  unfold unvis
  rw [List.filter_eq_self.mpr (by intro a ha; simp [dfsInit])]
  exact List.length_map t Prod.fst

theorem before_append_left (l l2 : List String) (a b : String)
    (h : Before l a b) : Before (l ++ l2) a b := by
  obtain ⟨i, j, hij, ha, hb⟩ := h
  have hj : j < l.length := by
    rcases List.get?_eq_some.mp hb with ⟨hlt, _⟩
    exact hlt
  exact ⟨i, j, hij, by rw [List.get?_append (lt_trans hij hj)]; exact ha,
    by rw [List.get?_append hj]; exact hb⟩

theorem before_append_last (l : List String) (a x : String) (ha : a ∈ l) :
    Before (l ++ [x]) a x := by
  obtain ⟨i, hi⟩ := List.get?_of_mem ha
  have hil : i < l.length := by
    rcases List.get?_eq_some.mp hi with ⟨hlt, _⟩
    exact hlt
  refine ⟨i, l.length, hil, ?_, ?_⟩
  · rw [List.get?_append hil]; exact hi
  · rw [List.get?_append_right (le_refl _)]
    simp

theorem before_trans (l : List String) (hnd : l.Nodup) (a b c : String)
    (h1 : Before l a b) (h2 : Before l b c) : Before l a c := by
  obtain ⟨i, j, hij, ha, hb⟩ := h1
  obtain ⟨k, m, hkm, hb2, hc⟩ := h2
  have hjl : j < l.length := by
    rcases List.get?_eq_some.mp hb with ⟨hlt, _⟩
    exact hlt
  have : j = k := List.get?_inj hjl hnd (hb.trans hb2.symm)
  exact ⟨i, m, lt_trans (this ▸ hij) hkm, ha, hc⟩

theorem before_irrefl (l : List String) (hnd : l.Nodup) (a : String) :
    ¬ Before l a a := by
  rintro ⟨i, j, hij, ha, hb⟩
  have hil : i < l.length := by
    rcases List.get?_eq_some.mp ha with ⟨hlt, _⟩
    exact hlt
  exact absurd (List.get?_inj hil hnd (ha.trans hb.symm)) (Nat.ne_of_lt hij)

/-- The loop invariant of topologicalSortDFS: the sorted output is
duplicate-free and dependency-closed in topological order, the recursion
stack is a path of visited, unsorted nodes ending at the current node, and
every visited node is on the stack or already output. -/
structure DfsInv (t : NodeTable) (s : DfsState) : Prop where
  nodupSorted : s.sorted.Nodup
  sortedClosed : ∀ b, b ∈ s.sorted → ∃ n, lookupAssoc t b = some n ∧
    ∀ a, a ∈ n.input_nodes → a ∈ s.sorted ∧ Before s.sorted a b
  stackVisited : ∀ x, x ∈ s.recStack → x ∈ s.visited
  stackSortedDisj : ∀ x, x ∈ s.recStack → x ∉ s.sorted
  sortedVisited : ∀ x, x ∈ s.sorted → x ∈ s.visited
  visitedSplit : ∀ x, x ∈ s.visited → x ∈ s.recStack ∨ x ∈ s.sorted
  stackChain : List.Chain' (fun a b => DepEdge t b a) s.recStack

/-- Call precondition of each DFS task shape: a node call targets an
unvisited node the stack top depends on; a dependency loop runs under a
current node whose remaining dependencies it processes. -/
def PreT (t : NodeTable) : DfsTask → DfsState → Prop
  | DfsTask.node id, s =>
    id ∉ s.visited ∧ ∀ b, s.recStack.head? = some b → DepEdge t b id
  | DfsTask.deps l, s => ∃ b r n, s.recStack = b :: r ∧
      lookupAssoc t b = some n ∧ ∀ a, a ∈ l → a ∈ n.input_nodes

/-- Postcondition on success: the visited node, or all loop dependencies,
end up in the sorted output. -/
def PostT : DfsTask → DfsState → Prop
  | DfsTask.node id, s2 => id ∈ s2.sorted
  | DfsTask.deps l, s2 => ∀ a, a ∈ l → a ∈ s2.sorted

theorem DfsInv_init (t : NodeTable) : DfsInv t dfsInit := by
  refine ⟨?_, ?_, ?_, ?_, ?_, ?_, ?_⟩ <;>
    first
      | exact List.nodup_nil
      | exact List.chain'_nil
      | (intro x hx; exact absurd hx (List.not_mem_nil x))

theorem DfsInv_push (t : NodeTable) (s : DfsState) (id : String)
    (hinv : DfsInv t s) (hid : id ∉ s.visited)
    (hhead : ∀ b, s.recStack.head? = some b → DepEdge t b id) :
    DfsInv t (dfsPush id s) := by
  have hidstack : id ∉ s.recStack := fun h => hid (hinv.stackVisited id h)
  have hidsorted : id ∉ s.sorted := fun h => hid (hinv.sortedVisited id h)
  refine ⟨hinv.nodupSorted, hinv.sortedClosed, ?_, ?_, ?_, ?_, ?_⟩
  · intro x hx
    rcases List.mem_cons.mp hx with h | h
    · exact h ▸ List.mem_cons_self id s.visited
    · exact List.mem_cons_of_mem id (hinv.stackVisited x h)
  · intro x hx
    rcases List.mem_cons.mp hx with h | h
    · exact h ▸ hidsorted
    · exact hinv.stackSortedDisj x h
  · intro x hx
    exact List.mem_cons_of_mem id (hinv.sortedVisited x hx)
  · intro x hx
    rcases List.mem_cons.mp hx with h | h
    · exact Or.inl (h ▸ List.mem_cons_self id s.recStack)
    · rcases hinv.visitedSplit x h with h2 | h2
      · exact Or.inl (List.mem_cons_of_mem id h2)
      · exact Or.inr h2
  · refine List.chain'_cons'.mpr ⟨?_, hinv.stackChain⟩
    intro b hb
    exact hhead b hb

theorem chain_reach (t : NodeTable) :
    ∀ (l : List String) (h x : String),
    List.Chain' (fun a b => DepEdge t b a) (h :: l) → x ∈ h :: l →
    Relation.ReflTransGen (DepEdge t) x h := by
  intro l
  induction l with
  | nil =>
    intro h x _ hx
    rcases List.mem_cons.mp hx with h1 | h1
    · exact h1 ▸ Relation.ReflTransGen.refl
    · exact absurd h1 (List.not_mem_nil x)
  | cons y l2 ih =>
    intro h x hch hx
    have hedge : DepEdge t y h := (List.chain'_cons.mp hch).1
    have hch2 : List.Chain' (fun a b => DepEdge t b a) (y :: l2) :=
      (List.chain'_cons.mp hch).2
    rcases List.mem_cons.mp hx with h1 | h1
    · exact h1 ▸ Relation.ReflTransGen.refl
    · exact Relation.ReflTransGen.tail (ih y x hch2 h1) hedge

theorem dfsGo_sound (t : NodeTable) : ∀ fuel task s s2,
    DfsInv t s → PreT t task s →
    dfsGo t fuel task s = some (some s2) →
    DfsInv t s2 ∧ (∀ x, x ∈ s.visited → x ∈ s2.visited) ∧
    s2.recStack = s.recStack ∧ (∃ suf, s2.sorted = s.sorted ++ suf) ∧
    PostT task s2 := by
  intro fuel
  induction fuel with
  | zero =>
    intro task s s2 _ _ heq
    exact Option.noConfusion heq
  | succ fuel ih =>
    intro task s s2 hinv hpre heq
    cases task with
    | node id =>
      obtain ⟨hid, hhead⟩ := hpre
      have hidstack : id ∉ s.recStack := fun h => hid (hinv.stackVisited id h)
      rw [dfsGo_node_eq] at heq
      split at heq
      · exact Option.noConfusion (Option.some.inj heq)
      · rename_i node hlk
        split at heq
        · exact Option.noConfusion heq
        · exact Option.noConfusion (Option.some.inj heq)
        · rename_i s3 hrec
          have hs2 : s2 = dfsPop id s3 := (Option.some.inj (Option.some.inj heq)).symm
          subst hs2
          have hpush := DfsInv_push t s id hinv hid hhead
          have hpre2 : PreT t (DfsTask.deps node.input_nodes) (dfsPush id s) :=
            ⟨id, s.recStack, node, rfl, hlk, fun a ha => ha⟩
          obtain ⟨hinv3, hmono3, hstk3, ⟨suf, hsorted3⟩, hpost3⟩ := ih _ _ _ hpush hpre2 hrec
          have hstk3b : s3.recStack = id :: s.recStack := hstk3
          have hsorted3b : s3.sorted = s.sorted ++ suf := hsorted3
          have hpost3b : ∀ a, a ∈ node.input_nodes → a ∈ s3.sorted := hpost3
          have hidstk3 : id ∈ s3.recStack := by
            rw [hstk3b]; exact List.mem_cons_self id s.recStack
          have hid3sorted : id ∉ s3.sorted := hinv3.stackSortedDisj id hidstk3
          have hfil : s3.recStack.filter (fun x => !(x == id)) = s.recStack := by
            rw [hstk3b, List.filter_cons_of_neg (by simp)]
            refine List.filter_eq_self.mpr ?_
            intro x hx
            have hne : x ≠ id := fun he => hidstack (he ▸ hx)
            simp [hne]
          refine ⟨?_, ?_, ?_, ?_, ?_⟩
          · refine ⟨?_, ?_, ?_, ?_, ?_, ?_, ?_⟩
            · show (s3.sorted ++ [id]).Nodup
              rw [List.nodup_append]
              refine ⟨hinv3.nodupSorted, List.nodup_singleton id, ?_⟩
              intro a ha hb
              exact hid3sorted (List.mem_singleton.mp hb ▸ ha)
            · intro b hb
              rcases List.mem_append.mp hb with h | h
              · obtain ⟨n, hn, hall⟩ := hinv3.sortedClosed b h
                exact ⟨n, hn, fun a ha =>
                  ⟨List.mem_append.mpr (Or.inl (hall a ha).1),
                   before_append_left _ _ _ _ (hall a ha).2⟩⟩
              · have hb2 : b = id := List.mem_singleton.mp h
                subst hb2
                exact ⟨node, hlk, fun a ha =>
                  ⟨List.mem_append.mpr (Or.inl (hpost3b a ha)),
                   before_append_last _ _ _ (hpost3b a ha)⟩⟩
            · intro x hx
              show x ∈ s3.visited
              have hx2 : x ∈ s.recStack := by
                have : (dfsPop id s3).recStack = s.recStack := hfil
                rw [← this]; exact hx
              exact hmono3 x (List.mem_cons_of_mem id (hinv.stackVisited x hx2))
            · intro x hx
              have hx2 : x ∈ s.recStack := by
                have : (dfsPop id s3).recStack = s.recStack := hfil
                rw [← this]; exact hx
              have hx3 : x ∈ s3.recStack := by
                rw [hstk3b]; exact List.mem_cons_of_mem id hx2
              intro hmem
              rcases List.mem_append.mp hmem with h | h
              · exact hinv3.stackSortedDisj x hx3 h
              · exact hidstack (List.mem_singleton.mp h ▸ hx2)
            · intro x hx
              rcases List.mem_append.mp hx with h | h
              · exact hinv3.sortedVisited x h
              · have : x = id := List.mem_singleton.mp h
                subst this
                exact hmono3 x (List.mem_cons_self x s.visited)
            · intro x hx
              rcases hinv3.visitedSplit x hx with h | h
              · rw [hstk3b] at h
                rcases List.mem_cons.mp h with h2 | h2
                · exact Or.inr (List.mem_append.mpr (Or.inr (h2 ▸ List.mem_singleton_self x)))
                · refine Or.inl ?_
                  show x ∈ (dfsPop id s3).recStack
                  rw [show (dfsPop id s3).recStack = s.recStack from hfil]
                  exact h2
              · exact Or.inr (List.mem_append.mpr (Or.inl h))
            · show List.Chain' (fun a b => DepEdge t b a) (dfsPop id s3).recStack
              rw [show (dfsPop id s3).recStack = s.recStack from hfil]
              exact hinv.stackChain
          · intro x hx
            exact hmono3 x (List.mem_cons_of_mem id hx)
          · exact hfil
          · exact ⟨suf ++ [id], by
              show s3.sorted ++ [id] = s.sorted ++ (suf ++ [id])
              rw [hsorted3b, List.append_assoc]⟩
          · show id ∈ s3.sorted ++ [id]
            exact List.mem_append.mpr (Or.inr (List.mem_singleton_self id))
    | deps l =>
      cases l with
      | nil =>
        rw [dfsGo_deps_nil_eq] at heq
        have hs : s = s2 := Option.some.inj (Option.some.inj heq)
        subst hs
        exact ⟨hinv, fun x hx => hx, rfl, ⟨[], (List.append_nil _).symm⟩,
          fun a ha => absurd ha (List.not_mem_nil a)⟩
      | cons dep rest =>
        obtain ⟨b, r, bnode, hstk, hlkb, hsub⟩ := hpre
        rw [dfsGo_deps_cons_eq] at heq
        split at heq
        · rename_i hvis
          split at heq
          · exact Option.noConfusion (Option.some.inj heq)
          · rename_i hnstk
            have hpre2 : PreT t (DfsTask.deps rest) s :=
              ⟨b, r, bnode, hstk, hlkb, fun a ha => hsub a (List.mem_cons_of_mem dep ha)⟩
            obtain ⟨hinv2, hmono2, hstk2, hext2, hpost2⟩ := ih _ _ _ hinv hpre2 heq
            refine ⟨hinv2, hmono2, hstk2, hext2, ?_⟩
            intro a ha
            rcases List.mem_cons.mp ha with h | h
            · subst h
              have hsorted : a ∈ s.sorted := by
                rcases hinv.visitedSplit a hvis with h2 | h2
                · exact absurd h2 hnstk
                · exact h2
              obtain ⟨suf, he⟩ := hext2
              rw [he]
              exact List.mem_append.mpr (Or.inl hsorted)
            · exact hpost2 a h
        · rename_i hnvis
          split at heq
          · exact Option.noConfusion heq
          · exact Option.noConfusion (Option.some.inj heq)
          · rename_i s3 hrec
            have hpreN : PreT t (DfsTask.node dep) s := by
              refine ⟨hnvis, ?_⟩
              intro bb hbb
              rw [hstk] at hbb
              have : b = bb := Option.some.inj hbb
              subst this
              exact ⟨bnode, hlkb, hsub dep (List.mem_cons_self dep rest)⟩
            obtain ⟨hinv3, hmono3, hstk3, hext3, hpost3⟩ := ih _ _ _ hinv hpreN hrec
            have hpre2 : PreT t (DfsTask.deps rest) s3 :=
              ⟨b, r, bnode, by rw [hstk3, hstk], hlkb,
                fun a ha => hsub a (List.mem_cons_of_mem dep ha)⟩
            obtain ⟨hinv2, hmono2, hstk2, hext2, hpost2⟩ := ih _ _ _ hinv3 hpre2 heq
            refine ⟨hinv2, fun x hx => hmono2 x (hmono3 x hx), by rw [hstk2, hstk3], ?_, ?_⟩
            · obtain ⟨suf1, h1⟩ := hext3
              obtain ⟨suf2, h2⟩ := hext2
              exact ⟨suf1 ++ suf2, by rw [h2, h1, List.append_assoc]⟩
            · intro a ha
              rcases List.mem_cons.mp ha with h | h
              · subst h
                have hdep3 : a ∈ s3.sorted := hpost3
                obtain ⟨suf2, h2⟩ := hext2
                rw [h2]
                exact List.mem_append.mpr (Or.inl hdep3)
              · exact hpost2 a h

theorem dfsGo_noFail (t : NodeTable)
    (hclosed : ∀ p, p ∈ t → ∀ a, a ∈ p.2.input_nodes → (lookupAssoc t a).isSome)
    (hacyc : ∀ n, ¬ Relation.TransGen (DepEdge t) n n) :
    ∀ fuel task s, DfsInv t s → PreT t task s →
    (∀ id, task = DfsTask.node id → (lookupAssoc t id).isSome) →
    dfsGo t fuel task s ≠ some none := by
  intro fuel
  induction fuel with
  | zero =>
    intro task s _ _ _ heq
    exact Option.noConfusion heq
  | succ fuel ih =>
    intro task s hinv hpre hlook heq
    cases task with
    | node id =>
      obtain ⟨hid, hhead⟩ := hpre
      rw [dfsGo_node_eq] at heq
      split at heq
      · rename_i hlk
        have := hlook id rfl
        rw [hlk] at this
        simp at this
      · rename_i node hlk
        split at heq
        · exact Option.noConfusion heq
        · rename_i hrec
          have hpush := DfsInv_push t s id hinv hid hhead
          have hpre2 : PreT t (DfsTask.deps node.input_nodes) (dfsPush id s) :=
            ⟨id, s.recStack, node, rfl, hlk, fun a ha => ha⟩
          exact ih _ _ hpush hpre2 (fun i hi => DfsTask.noConfusion hi) hrec
        · exact Option.noConfusion (Option.some.inj heq)
    | deps l =>
      cases l with
      | nil =>
        rw [dfsGo_deps_nil_eq] at heq
        exact Option.noConfusion (Option.some.inj heq)
      | cons dep rest =>
        obtain ⟨b, r, bnode, hstk, hlkb, hsub⟩ := hpre
        rw [dfsGo_deps_cons_eq] at heq
        split at heq
        · rename_i hvis
          split at heq
          · rename_i hinstk
            have hedge : DepEdge t b dep := ⟨bnode, hlkb, hsub dep (List.mem_cons_self dep rest)⟩
            have hchain : List.Chain' (fun a c => DepEdge t c a) (b :: r) := by
              rw [← hstk]; exact hinv.stackChain
            have hmem : dep ∈ b :: r := by rw [← hstk]; exact hinstk
            have hreach : Relation.ReflTransGen (DepEdge t) dep b :=
              chain_reach t r b dep hchain hmem
            exact hacyc dep (Relation.TransGen.tail' hreach hedge)
          · rename_i hninstk
            have hpre2 : PreT t (DfsTask.deps rest) s :=
              ⟨b, r, bnode, hstk, hlkb, fun a ha => hsub a (List.mem_cons_of_mem dep ha)⟩
            exact ih _ _ hinv hpre2 (fun i hi => DfsTask.noConfusion hi) heq
        · rename_i hnvis
          split at heq
          · exact Option.noConfusion heq
          · rename_i hrec
            have hpreN : PreT t (DfsTask.node dep) s := by
              refine ⟨hnvis, ?_⟩
              intro bb hbb
              rw [hstk] at hbb
              have : b = bb := Option.some.inj hbb
              subst this
              exact ⟨bnode, hlkb, hsub dep (List.mem_cons_self dep rest)⟩
            have hdeplook : ∀ i, DfsTask.node dep = DfsTask.node i → (lookupAssoc t i).isSome := by
              intro i hi
              have : dep = i := by cases hi; rfl
              subst this
              exact hclosed (b, bnode) (lookupAssoc_mem t b bnode hlkb) dep
                (hsub dep (List.mem_cons_self dep rest))
            exact ih _ _ hinv hpreN hdeplook hrec
          · rename_i s3 hrec
            obtain ⟨hinv3, hmono3, hstk3, hext3, hpost3⟩ :=
              dfsGo_sound t fuel (DfsTask.node dep) s s3 hinv
                (by
                  refine ⟨hnvis, ?_⟩
                  intro bb hbb
                  rw [hstk] at hbb
                  have : b = bb := Option.some.inj hbb
                  subst this
                  exact ⟨bnode, hlkb, hsub dep (List.mem_cons_self dep rest)⟩) hrec
            have hpre2 : PreT t (DfsTask.deps rest) s3 :=
              ⟨b, r, bnode, by rw [hstk3, hstk], hlkb,
                fun a ha => hsub a (List.mem_cons_of_mem dep ha)⟩
            exact ih _ _ hinv3 hpre2 (fun i hi => DfsTask.noConfusion hi) heq

theorem dfsGo_visited_mono (t : NodeTable) : ∀ fuel task s s2,
    dfsGo t fuel task s = some (some s2) →
    ∀ x, x ∈ s.visited → x ∈ s2.visited := by
  intro fuel
  induction fuel with
  | zero =>
    intro task s s2 heq
    exact Option.noConfusion heq
  | succ fuel ih =>
    intro task s s2 heq
    cases task with
    | node id =>
      rw [dfsGo_node_eq] at heq
      split at heq
      · exact Option.noConfusion (Option.some.inj heq)
      · rename_i node hlk
        split at heq
        · exact Option.noConfusion heq
        · exact Option.noConfusion (Option.some.inj heq)
        · rename_i s3 hrec
          have hs2 : s2 = dfsPop id s3 := (Option.some.inj (Option.some.inj heq)).symm
          subst hs2
          intro x hx
          exact ih _ _ _ hrec x (List.mem_cons_of_mem id hx)
    | deps l =>
      cases l with
      | nil =>
        rw [dfsGo_deps_nil_eq] at heq
        have hs : s = s2 := Option.some.inj (Option.some.inj heq)
        subst hs
        exact fun x hx => hx
      | cons dep rest =>
        rw [dfsGo_deps_cons_eq] at heq
        split at heq
        · split at heq
          · exact Option.noConfusion (Option.some.inj heq)
          · exact ih _ _ _ heq
        · split at heq
          · exact Option.noConfusion heq
          · exact Option.noConfusion (Option.some.inj heq)
          · rename_i s3 hrec
            intro x hx
            exact ih _ _ _ heq x (ih _ _ _ hrec x hx)

theorem maxDeps_bound (t : NodeTable) :
    ∀ p, p ∈ t → p.2.input_nodes.length ≤ maxDeps t := by
  induction t with
  | nil =>
    intro p hp
    exact absurd hp (List.not_mem_nil p)
  | cons q rest ih =>
    intro p hp
    rcases List.mem_cons.mp hp with h | h
    · subst h
      exact le_max_left _ _
    · exact le_trans (ih p h) (le_max_right _ _)

theorem dfsGo_fuelDeps (t : NodeTable) (v : Nat)
    (hnode : ∀ fuel s id, id ∉ s.visited → unvis t s ≤ v →
      v * (maxDeps t + 2) + 1 ≤ fuel → dfsGo t fuel (DfsTask.node id) s ≠ none) :
    ∀ l fuel s, unvis t s ≤ v →
      l.length + (v * (maxDeps t + 2) + 1) + 1 ≤ fuel →
      dfsGo t fuel (DfsTask.deps l) s ≠ none := by
  intro l
  induction l with
  | nil =>
    intro fuel s _ hf
    cases fuel with
    | zero => omega
    | succ f =>
      rw [dfsGo_deps_nil_eq]
      exact fun h => Option.noConfusion h
  | cons dep rest ih =>
    intro fuel s hu hf
    cases fuel with
    | zero =>
      exfalso
      have : 1 ≤ (0 : Nat) := le_trans (by omega) hf
      omega
    | succ f =>
      rw [dfsGo_deps_cons_eq]
      split
      · split
        · exact fun h => Option.noConfusion h
        · refine ih f s hu ?_
          simp only [List.length_cons] at hf
          omega
      · rename_i hnvis
        have hflen : rest.length + (v * (maxDeps t + 2) + 1) + 1 ≤ f := by
          simp only [List.length_cons] at hf
          omega
        have hfnode : v * (maxDeps t + 2) + 1 ≤ f := by omega
        cases hrec : dfsGo t f (DfsTask.node dep) s with
        | none => exact absurd hrec (hnode f s dep hnvis hu hfnode)
        | some o =>
          cases o with
          | none => exact fun h => Option.noConfusion h
          | some s3 =>
            have hmono := dfsGo_visited_mono t f (DfsTask.node dep) s s3 hrec
            have hu3 : unvis t s3 ≤ v :=
              le_trans (unvis_le_of_subset t s s3 hmono) hu
            exact ih f s3 hu3 hflen

theorem dfsGo_fuelNode (t : NodeTable) : ∀ u : Nat, ∀ fuel s id,
    id ∉ s.visited → unvis t s ≤ u →
    u * (maxDeps t + 2) + 1 ≤ fuel →
    dfsGo t fuel (DfsTask.node id) s ≠ none := by
  intro u
  induction u using Nat.strong_induction_on with
  | _ u ih =>
    intro fuel s id hid hu hf
    cases fuel with
    | zero => omega
    | succ f =>
      intro h
      rw [dfsGo_node_eq] at h
      split at h
      · exact Option.noConfusion h
      · rename_i node hlk
        split at h
        · rename_i hrec
          have hkey : id ∈ t.map Prod.fst := lookupAssoc_key_mem t id node hlk
          have hu1 : 1 ≤ u := le_trans (unvis_pos t s id hid hkey) hu
          cases u with
          | zero => omega
          | succ w =>
            have hwlt : w < w + 1 := Nat.lt_succ_self w
            have hpushu : unvis t (dfsPush id s) ≤ w := by
              have := unvis_push_lt t s id hid hkey
              omega
            have hlen : node.input_nodes.length ≤ maxDeps t :=
              maxDeps_bound t (id, node) (lookupAssoc_mem t id node hlk)
            have hfdeps : node.input_nodes.length + (w * (maxDeps t + 2) + 1) + 1 ≤ f := by
              have hexp : (w + 1) * (maxDeps t + 2) = w * (maxDeps t + 2) + (maxDeps t + 2) :=
                Nat.succ_mul w (maxDeps t + 2)
              omega
            exact dfsGo_fuelDeps t w
              (fun fuel2 s2 id2 h1 h2 h3 => ih w hwlt fuel2 s2 id2 h1 h2 h3)
              node.input_nodes f (dfsPush id s) hpushu hfdeps hrec
        · exact Option.noConfusion h
        · exact Option.noConfusion h

theorem dfsGo_init_ne_none (t : NodeTable) (out : String) :
    dfsGo t (dfsFuel t) (DfsTask.node out) dfsInit ≠ none := by
  refine dfsGo_fuelNode t t.length (dfsFuel t) dfsInit out ?_ ?_ ?_
  · exact List.not_mem_nil out
  · rw [unvis_init]
  · exact le_refl _

theorem collectRefs_eq (t : NodeTable) : ∀ args l,
    collectRefs t args = some l → l = extractRefs args := by
  intro args
  induction args with
  | nil =>
    intro l h
    exact (Option.some.inj h).symm
  | cons arg rest ih =>
    intro l h
    rw [show collectRefs t (arg :: rest) = (match findShaderRef arg with
      | none => collectRefs t rest
      | some refId =>
        match lookupAssoc t refId with
        | none => none
        | some _ =>
          match collectRefs t rest with
          | none => none
          | some ins => some (refId :: ins)) from rfl] at h
    split at h
    · rename_i hf
      unfold extractRefs
      rw [List.filterMap_cons_none hf]
      exact ih l h
    · rename_i refId hf
      split at h
      · exact Option.noConfusion h
      · rename_i m hm
        split at h
        · exact Option.noConfusion h
        · rename_i ins hins
          have hl : l = refId :: ins := (Option.some.inj h).symm
          subst hl
          unfold extractRefs
          rw [List.filterMap_cons_some hf]
          exact congrArg (fun x => refId :: x) (ih ins hins)

theorem collectRefs_closed (t : NodeTable) : ∀ args,
    (∀ r, r ∈ extractRefs args → (lookupAssoc t r).isSome) →
    collectRefs t args = some (extractRefs args) := by
  intro args
  induction args with
  | nil => intro _; rfl
  | cons arg rest ih =>
    intro hcl
    rw [show collectRefs t (arg :: rest) = (match findShaderRef arg with
      | none => collectRefs t rest
      | some refId =>
        match lookupAssoc t refId with
        | none => none
        | some _ =>
          match collectRefs t rest with
          | none => none
          | some ins => some (refId :: ins)) from rfl]
    cases hf : findShaderRef arg with
    | none =>
      have hre : extractRefs (arg :: rest) = extractRefs rest := by
        unfold extractRefs
        rw [List.filterMap_cons_none hf]
      rw [hre]
      exact ih (fun r hr => hcl r (by rw [hre]; exact hr))
    | some refId =>
      have hre : extractRefs (arg :: rest) = refId :: extractRefs rest := by
        unfold extractRefs
        rw [List.filterMap_cons_some hf]
      have hsome : (lookupAssoc t refId).isSome :=
        hcl refId (by rw [hre]; exact List.mem_cons_self refId _)
      obtain ⟨m, hm⟩ := Option.isSome_iff_exists.mp hsome
      dsimp only
      rw [hm]
      dsimp only
      rw [ih (fun r hr => hcl r (by rw [hre]; exact List.mem_cons_of_mem refId hr))]
      dsimp only
      rw [hre]

theorem resolveNode_spec (t : NodeTable) (n n2 : CompositionNode)
    (h : resolveNode t n = some n2) :
    n2.input_nodes = extractRefs n.arguments ∧ n2.arguments = n.arguments ∧
    n2.function_name = n.function_name := by
  unfold resolveNode at h
  split at h
  · exact Option.noConfusion h
  · rename_i ins hins
    have h2 := (Option.some.inj h).symm
    subst h2
    exact ⟨collectRefs_eq t n.arguments ins hins, rfl, rfl⟩

theorem resolveAllGo_lookup (t : NodeTable) : ∀ l R, resolveAllGo t l = some R → ∀ k,
    (lookupAssoc R k = none ∧ lookupAssoc l k = none) ∨
    ∃ n n2, lookupAssoc l k = some n ∧ resolveNode t n = some n2 ∧
      lookupAssoc R k = some n2 := by
  intro l
  induction l with
  | nil =>
    intro R hR k
    have : R = [] := (Option.some.inj hR).symm
    subst this
    exact Or.inl ⟨rfl, rfl⟩
  | cons p rest ih =>
    intro R hR k
    obtain ⟨k0, n0⟩ := p
    rw [show resolveAllGo t ((k0, n0) :: rest) = (match resolveNode t n0 with
      | none => none
      | some n2 =>
        match resolveAllGo t rest with
        | none => none
        | some r => some ((k0, n2) :: r)) from rfl] at hR
    split at hR
    · exact Option.noConfusion hR
    · rename_i n2 hres
      split at hR
      · exact Option.noConfusion hR
      · rename_i r hrest
        have hReq : R = (k0, n2) :: r := (Option.some.inj hR).symm
        subst hReq
        by_cases hk : k0 = k
        · subst hk
          exact Or.inr ⟨n0, n2, by simp [lookupAssoc], hres, by simp [lookupAssoc]⟩
        · have hbeq : (k0 == k) = false := beq_eq_false_iff_ne.mpr hk
          have h1 : lookupAssoc ((k0, n0) :: rest) k = lookupAssoc rest k := by
            unfold lookupAssoc
            rw [List.find?_cons_of_neg]
            simp [hbeq]
          have h2 : lookupAssoc ((k0, n2) :: r) k = lookupAssoc r k := by
            unfold lookupAssoc
            rw [List.find?_cons_of_neg]
            simp [hbeq]
          rcases ih r hrest k with ⟨ha, hb⟩ | ⟨n, m2, ha, hb, hc⟩
          · exact Or.inl ⟨by rw [h2]; exact ha, by rw [h1]; exact hb⟩
          · exact Or.inr ⟨n, m2, by rw [h1]; exact ha, hb, by rw [h2]; exact hc⟩

theorem resolveAllGo_mem (t : NodeTable) : ∀ l R, resolveAllGo t l = some R →
    ∀ q, q ∈ R → ∃ p, p ∈ l ∧ p.1 = q.1 ∧ resolveNode t p.2 = some q.2 := by
  intro l
  induction l with
  | nil =>
    intro R hR q hq
    have : R = [] := (Option.some.inj hR).symm
    subst this
    exact absurd hq (List.not_mem_nil q)
  | cons p rest ih =>
    intro R hR q hq
    obtain ⟨k0, n0⟩ := p
    rw [show resolveAllGo t ((k0, n0) :: rest) = (match resolveNode t n0 with
      | none => none
      | some n2 =>
        match resolveAllGo t rest with
        | none => none
        | some r => some ((k0, n2) :: r)) from rfl] at hR
    split at hR
    · exact Option.noConfusion hR
    · rename_i n2 hres
      split at hR
      · exact Option.noConfusion hR
      · rename_i r hrest
        have hReq : R = (k0, n2) :: r := (Option.some.inj hR).symm
        subst hReq
        rcases List.mem_cons.mp hq with h | h
        · subst h
          exact ⟨(k0, n0), List.mem_cons_self _ _, rfl, hres⟩
        · obtain ⟨p2, hp2, hk2, hr2⟩ := ih r hrest q h
          exact ⟨p2, List.mem_cons_of_mem _ hp2, hk2, hr2⟩

theorem resolveAllGo_total (t : NodeTable) : ∀ l,
    (∀ p, p ∈ l → ∀ r, r ∈ extractRefs p.2.arguments → (lookupAssoc t r).isSome) →
    ∃ R, resolveAllGo t l = some R := by
  intro l
  induction l with
  | nil => exact fun _ => ⟨[], rfl⟩
  | cons p rest ih =>
    intro hcl
    obtain ⟨k0, n0⟩ := p
    have hc : collectRefs t n0.arguments = some (extractRefs n0.arguments) :=
      collectRefs_closed t n0.arguments
        (fun r hr => hcl (k0, n0) (List.mem_cons_self _ _) r hr)
    have hre : ∃ n2, resolveNode t n0 = some n2 := by
      unfold resolveNode
      rw [hc]
      exact ⟨_, rfl⟩
    obtain ⟨n2, hn2⟩ := hre
    obtain ⟨R1, hR1⟩ := ih (fun q hq r hr => hcl q (List.mem_cons_of_mem _ hq) r hr)
    refine ⟨(k0, n2) :: R1, ?_⟩
    rw [show resolveAllGo t ((k0, n0) :: rest) = (match resolveNode t n0 with
      | none => none
      | some m =>
        match resolveAllGo t rest with
        | none => none
        | some r => some ((k0, m) :: r)) from rfl]
    rw [hn2, hR1]

theorem DepEdge_iff_RefEdge (t R : NodeTable) (hres : resolveAll t = some R)
    (a b : String) : DepEdge R a b ↔ RefEdge t a b := by
  constructor
  · rintro ⟨m, hm, hb⟩
    rcases resolveAllGo_lookup t t R hres a with ⟨h1, _⟩ | ⟨n, n2, h1, h2, h3⟩
    · rw [hm] at h1
      exact Option.noConfusion h1
    · have he : n2 = m := Option.some.inj (h3.symm.trans hm)
      subst he
      obtain ⟨hin, _, _⟩ := resolveNode_spec t n n2 h2
      exact ⟨n, h1, by rw [← hin]; exact hb⟩
  · rintro ⟨n, hn, hb⟩
    rcases resolveAllGo_lookup t t R hres a with ⟨_, h2⟩ | ⟨n', n2, h1, h2, h3⟩
    · rw [hn] at h2
      exact Option.noConfusion h2
    · have he : n' = n := Option.some.inj (h1.symm.trans hn)
      subst he
      obtain ⟨hin, _, _⟩ := resolveNode_spec t n' n2 h2
      exact ⟨n2, h3, by rw [hin]; exact hb⟩

theorem resolved_closed (t R : NodeTable) (hres : resolveAll t = some R)
    (hcl : ∀ p, p ∈ t → ∀ r, r ∈ extractRefs p.2.arguments → (lookupAssoc t r).isSome) :
    ∀ p, p ∈ R → ∀ a, a ∈ p.2.input_nodes → (lookupAssoc R a).isSome := by
  intro q hq a ha
  obtain ⟨p, hp, _, hr⟩ := resolveAllGo_mem t t R hres q hq
  obtain ⟨hin, _, _⟩ := resolveNode_spec t p.2 q.2 hr
  rw [hin] at ha
  have hts : (lookupAssoc t a).isSome := hcl p hp a ha
  rcases resolveAllGo_lookup t t R hres a with ⟨_, h2⟩ | ⟨n, n2, _, _, h3⟩
  · rw [h2] at hts
    simp at hts
  · rw [h3]
    rfl

theorem resolved_lookup_isSome (t R : NodeTable) (hres : resolveAll t = some R)
    (k : String) (h : (lookupAssoc t k).isSome) : (lookupAssoc R k).isSome := by
  rcases resolveAllGo_lookup t t R hres k with ⟨_, h2⟩ | ⟨n, n2, _, _, h3⟩
  · rw [h2] at h
    simp at h
  · rw [h3]
    rfl

theorem sorted_reach_mem (t : NodeTable) (s : DfsState) (hinv : DfsInv t s) :
    ∀ a c, Relation.ReflTransGen (DepEdge t) a c → a ∈ s.sorted → c ∈ s.sorted := by
  intro a c h
  induction h with
  | refl => exact fun h => h
  | tail _ hbc ih =>
    intro ha
    obtain ⟨n, hn, hin⟩ := hbc
    have hb := ih ha
    obtain ⟨n2, hn2, hall⟩ := hinv.sortedClosed _ hb
    have he : n2 = n := Option.some.inj (hn2.symm.trans hn)
    subst he
    exact (hall _ hin).1

theorem sorted_no_cycle (t : NodeTable) (s : DfsState) (hinv : DfsInv t s) :
    ∀ n, n ∈ s.sorted → ¬ Relation.TransGen (DepEdge t) n n := by
  have haux : ∀ a c, Relation.TransGen (DepEdge t) a c → a ∈ s.sorted →
      c ∈ s.sorted ∧ Before s.sorted c a := by
    intro a c h
    induction h with
    | single hac =>
      intro ha
      obtain ⟨n, hn, hin⟩ := hac
      obtain ⟨n2, hn2, hall⟩ := hinv.sortedClosed _ ha
      have he : n2 = n := Option.some.inj (hn2.symm.trans hn)
      subst he
      exact hall _ hin
    | tail _ hbc ih =>
      intro ha
      obtain ⟨hb, hba⟩ := ih ha
      obtain ⟨n, hn, hin⟩ := hbc
      obtain ⟨n2, hn2, hall⟩ := hinv.sortedClosed _ hb
      have he : n2 = n := Option.some.inj (hn2.symm.trans hn)
      subst he
      obtain ⟨hc, hcb⟩ := hall _ hin
      exact ⟨hc, before_trans _ hinv.nodupSorted _ _ _ hcb hba⟩
  intro n hn hcyc
  obtain ⟨_, hb⟩ := haux n n hcyc hn
  exact before_irrefl _ hinv.nodupSorted n hb

/-- C1: for every set of registered composition nodes whose $shader_id
reference graph contains a cycle reachable from the requested output node,
compileGraph terminates with a failure value: it returns no artifact and
leaves the whole engine state, in particular the compiled cache, untouched,
for every behaviour of the code generator, GPU compiler, complex-expression
test and expression evaluator; moreover the topological sort itself
genuinely reports failure (the C++ false) at the proven-sufficient fuel,
so the C++ recursion detects the cycle rather than diverging. -/
theorem compileGraph_cycle_fails (env : CompEnv) (mu : MuOracle) (st : EngineState)
    (out n : String)
    (hreach : Relation.ReflTransGen (RefEdge st.pending_nodes) out n)
    (hcyc : Relation.TransGen (RefEdge st.pending_nodes) n n) :
    compileGraph env mu st out = (none, st) ∧
    ∀ R, resolveAll st.pending_nodes = some R →
      dfsGo R (dfsFuel R) (DfsTask.node out) dfsInit = some none := by
  have hdfs : ∀ R, resolveAll st.pending_nodes = some R →
      dfsGo R (dfsFuel R) (DfsTask.node out) dfsInit = some none := by
    intro R hres
    have hreachR : Relation.ReflTransGen (DepEdge R) out n :=
      Relation.ReflTransGen.mono
        (fun a b h => (DepEdge_iff_RefEdge st.pending_nodes R hres a b).mpr h) hreach
    have hcycR : Relation.TransGen (DepEdge R) n n :=
      Relation.TransGen.mono
        (fun a b h => (DepEdge_iff_RefEdge st.pending_nodes R hres a b).mpr h) hcyc
    cases he : dfsGo R (dfsFuel R) (DfsTask.node out) dfsInit with
    | none => exact absurd he (dfsGo_init_ne_none R out)
    | some o =>
      cases o with
      | none => rfl
      | some s =>
        exfalso
        have hpre : PreT R (DfsTask.node out) dfsInit :=
          ⟨List.not_mem_nil out, fun b hb => Option.noConfusion hb⟩
        obtain ⟨hinvS, _, _, _, hpost⟩ :=
          dfsGo_sound R (dfsFuel R) (DfsTask.node out) dfsInit s (DfsInv_init R) hpre he
        have houtm : out ∈ s.sorted := hpost
        have hnm : n ∈ s.sorted := sorted_reach_mem R s hinvS out n hreachR houtm
        exact sorted_no_cycle R s hinvS n hnm hcycR
  refine ⟨?_, hdfs⟩
  have hchain : analyzeDependenciesE st.pending_nodes out = [] := by
    unfold analyzeDependenciesE
    cases hres : resolveAll st.pending_nodes with
    | none => rfl
    | some R =>
      dsimp only
      unfold topologicalSortE
      rw [hdfs R hres]
  unfold compileGraph
  by_cases hsome : (lookupAssoc st.pending_nodes out).isSome
  · rw [if_pos hsome]
    dsimp only
    rw [hchain]
    rfl
  · rw [if_neg hsome]

/-- First node of the two-node reference cycle used as concrete input. -/
def cycNodeA : CompositionNode := mkCompositionNode "fnA" ["$shader_2"] "shader_1"

/-- Second node of the two-node reference cycle used as concrete input. -/
def cycNodeB : CompositionNode := mkCompositionNode "fnB" ["$shader_1"] "shader_2"

/-- A pending_nodes table whose two nodes reference each other. -/
def cycTable : NodeTable := [("shader_1", cycNodeA), ("shader_2", cycNodeB)]

/-- Engine state holding the cyclic table and an empty compiled cache. -/
def cycState : EngineState := { pending_nodes := cycTable, compiled_cache := [] }

/-- A concrete environment for the external collaborators of compileGraph. -/
def wCompEnv : CompEnv :=
  { genUnified := fun _ => "void main() \x7b\x7d"
    isComplexExpr := fun _ => false
    compileOk := fun _ => true }

/-- A concrete muParser oracle. -/
def wMuOracle : MuOracle :=
  { usedVars := fun _ => none
    evalThrows := fun _ => true
    evalValue := fun _ => 0 }

theorem cycEdge12 : RefEdge cycTable "shader_1" "shader_2" := ⟨cycNodeA, rfl, by decide⟩

theorem cycEdge21 : RefEdge cycTable "shader_2" "shader_1" := ⟨cycNodeB, rfl, by decide⟩

theorem compileGraph_cycle_fails_witness :
    compileGraph wCompEnv wMuOracle cycState "shader_1" = (none, cycState) :=
  (compileGraph_cycle_fails wCompEnv wMuOracle cycState "shader_1" "shader_1"
    Relation.ReflTransGen.refl
    (Relation.TransGen.tail (Relation.TransGen.single cycEdge12) cycEdge21)).1

theorem lookupAssoc_cons_ne {α : Type} (k0 : String) (v : α) (m : List (String × α))
    (k : String) (h : (k0 == k) = false) :
    lookupAssoc ((k0, v) :: m) k = lookupAssoc m k := by
  unfold lookupAssoc
  rw [List.find?_cons_of_neg]
  simp [h]

/-- C2: for every registered composition graph all of whose $shader_id
references resolve to existing nodes and whose reference graph is acyclic,
analyzeDependencies of an existing output node returns a nonempty ordering
in which every node referenced by a listed node is itself listed strictly
before the node that references it. -/
theorem analyzeDependencies_acyclic_order (t : NodeTable) (out : String)
    (hclosed : ∀ p, p ∈ t → ∀ r, r ∈ extractRefs p.2.arguments → (lookupAssoc t r).isSome)
    (hacyc : ∀ m, ¬ Relation.TransGen (RefEdge t) m m)
    (hout : (lookupAssoc t out).isSome) :
    analyzeDependenciesE t out ≠ [] ∧
    ∀ b a, b ∈ analyzeDependenciesE t out → RefEdge t b a →
      a ∈ analyzeDependenciesE t out ∧ Before (analyzeDependenciesE t out) a b := by
  obtain ⟨R, hres⟩ := resolveAllGo_total t t hclosed
  have hres2 : resolveAll t = some R := hres
  have hclosedR := resolved_closed t R hres2 hclosed
  have hacycR : ∀ m, ¬ Relation.TransGen (DepEdge R) m m := fun m hc =>
    hacyc m (Relation.TransGen.mono
      (fun a b h => (DepEdge_iff_RefEdge t R hres2 a b).mp h) hc)
  have houtR : (lookupAssoc R out).isSome := resolved_lookup_isSome t R hres2 out hout
  have hpre : PreT R (DfsTask.node out) dfsInit :=
    ⟨List.not_mem_nil out, fun b hb => Option.noConfusion hb⟩
  have hnf := dfsGo_noFail R hclosedR hacycR (dfsFuel R) (DfsTask.node out) dfsInit
    (DfsInv_init R) hpre (fun id hid => by cases hid; exact houtR)
  have hnn := dfsGo_init_ne_none R out
  cases he : dfsGo R (dfsFuel R) (DfsTask.node out) dfsInit with
  | none => exact absurd he hnn
  | some o =>
    cases o with
    | none => exact absurd he hnf
    | some s =>
      obtain ⟨hinvS, _, _, _, hpost⟩ :=
        dfsGo_sound R (dfsFuel R) (DfsTask.node out) dfsInit s (DfsInv_init R) hpre he
      have hAD : analyzeDependenciesE t out = s.sorted := by
        unfold analyzeDependenciesE
        rw [hres2]
        dsimp only
        unfold topologicalSortE
        rw [he]
      rw [hAD]
      constructor
      · exact List.ne_nil_of_mem (hpost : out ∈ s.sorted)
      · intro b a hb hedge
        have hedgeR : DepEdge R b a := (DepEdge_iff_RefEdge t R hres2 b a).mpr hedge
        obtain ⟨n, hn, hin⟩ := hedgeR
        obtain ⟨n2, hn2, hall⟩ := hinvS.sortedClosed b hb
        have heq2 : n2 = n := Option.some.inj (hn2.symm.trans hn)
        subst heq2
        exact hall a hin

/-- Node A of the acyclic two-node scenario: fn1 applied to st. -/
def wNodeA : CompositionNode := mkCompositionNode "fn1" ["st"] "shader_1"

/-- Node B of the acyclic two-node scenario: fn2 applied to the reference
to node A and to time. -/
def wNodeB : CompositionNode := mkCompositionNode "fn2" ["$shader_1", "time"] "shader_2"

/-- Pending table of the acyclic scenario. -/
def wTable : NodeTable := [("shader_1", wNodeA), ("shader_2", wNodeB)]

theorem wEdge_char : ∀ a b, RefEdge wTable a b → a = "shader_2" ∧ b = "shader_1" := by
  intro a b h
  obtain ⟨n, hl, hb⟩ := h
  by_cases ha1 : a = "shader_1"
  · subst ha1
    have he : wNodeA = n :=
      Option.some.inj ((show lookupAssoc wTable "shader_1" = some wNodeA from rfl).symm.trans hl)
    subst he
    rw [show extractRefs wNodeA.arguments = [] from by decide] at hb
    exact absurd hb (List.not_mem_nil b)
  · by_cases ha2 : a = "shader_2"
    · subst ha2
      have he : wNodeB = n :=
        Option.some.inj ((show lookupAssoc wTable "shader_2" = some wNodeB from rfl).symm.trans hl)
      subst he
      rw [show extractRefs wNodeB.arguments = ["shader_1"] from by decide] at hb
      exact ⟨rfl, List.mem_singleton.mp hb⟩
    · exfalso
      have hb1 : (("shader_1" : String) == a) = false :=
        beq_eq_false_iff_ne.mpr (fun h2 => ha1 h2.symm)
      have hb2 : (("shader_2" : String) == a) = false :=
        beq_eq_false_iff_ne.mpr (fun h2 => ha2 h2.symm)
      have hnone : lookupAssoc wTable a = none := by
        rw [show wTable = [("shader_1", wNodeA), ("shader_2", wNodeB)] from rfl]
        rw [lookupAssoc_cons_ne _ _ _ _ hb1, lookupAssoc_cons_ne _ _ _ _ hb2]
        rfl
      rw [hnone] at hl
      exact Option.noConfusion hl

theorem wAcyclic : ∀ m, ¬ Relation.TransGen (RefEdge wTable) m m := by
  have haux : ∀ a b, Relation.TransGen (RefEdge wTable) a b →
      a = "shader_2" ∧ b = "shader_1" := by
    intro a b h
    induction h with
    | single he => exact wEdge_char _ _ he
    | tail _ hbc ih => exact ⟨ih.1, (wEdge_char _ _ hbc).2⟩
  intro m hm
  obtain ⟨h2, h1⟩ := haux m m hm
  exact absurd (h2.symm.trans h1) (by decide)

theorem analyzeDependencies_acyclic_order_witness :
    analyzeDependenciesE wTable "shader_2" ≠ [] ∧
    ∀ b a, b ∈ analyzeDependenciesE wTable "shader_2" → RefEdge wTable b a →
      a ∈ analyzeDependenciesE wTable "shader_2" ∧
      Before (analyzeDependenciesE wTable "shader_2") a b :=
  analyzeDependencies_acyclic_order wTable "shader_2" (by decide) wAcyclic (by decide)

theorem analyzeDependencies_scenario :
    analyzeDependenciesE wTable "shader_2" = ["shader_1", "shader_2"] := by decide
